import Mathlib

/-!
Shallow embedding of the migration engine in crates/sozo/ops/src/migrate/mod.rs.

The engine reconciles a precomputed world diff against a remote target by
emitting register/upgrade/grant/init/deploy calls and publishing code
artifacts (classes).  Remote effects are modelled as a trace of operations
(`RemoteOp`); hash maps are modelled as association lists whose order stands
in for the (unspecified) iteration order of the Rust HashMap; machine field
elements are modelled as natural numbers.
-/

set_option maxHeartbeats 1000000

namespace Dojo

/-- Field elements (selectors, class hashes, addresses) are modelled as naturals. -/
abbrev Felt := Nat

/-- Association list lookup, standing in for HashMap get. -/
def alookup {κ ν : Type} [DecidableEq κ] : List (κ × ν) → κ → Option ν
  | [], _ => none
  | p :: rest, k => if p.1 = k then some p.2 else alookup rest k

/-- Association list insert with replace-on-existing-key, standing in for HashMap insert. -/
def ainsert {κ ν : Type} [DecidableEq κ] (m : List (κ × ν)) (k : κ) (v : ν) : List (κ × ν) :=
  if k ∈ m.map Prod.fst then m.map (fun p => if p.1 = k then (k, v) else p)
  else m ++ [(k, v)]

/-- Position of the first occurrence of an element in a list, as in Iterator::position. -/
def listPosition (l : List String) (x : String) : Option Nat :=
  match l with
  | [] => none
  | y :: ys => if y = x then some 0 else (listPosition ys x).map (· + 1)

/-- Whether the first character list is a prefix of the second. -/
def charsPrefix : List Char → List Char → Bool
  | [], _ => true
  | _ :: _, [] => false
  | a :: as, b :: bs => a == b && charsPrefix as bs

/-- Whether the character list given first contains the needle given second. -/
def charsContains (needle : List Char) : List Char → Bool
  | [] => charsPrefix needle []
  | c :: rest => charsPrefix needle (c :: rest) || charsContains needle rest

/-- Substring containment on strings, standing in for str::contains. -/
def strContains (hay needle : String) : Bool :=
  charsContains needle.data hay.data

/-! ## Data model -/

/-- The kinds of registry resources. -/
inductive ResourceType
  | Namespace
  | Contract
  | Library
  | Model
  | Event
deriving DecidableEq, Repr

/-- Fields shared by every local (declared) non-namespace resource: its namespace,
name, sierra class hash, casm class hash, and an identifier standing for the
compiled class artifact itself. -/
structure CommonLocal where
  namespace_ : String
  name : String
  class_hash : Felt
  casm_class_hash : Felt
  class_id : Felt
deriving DecidableEq, Repr

/-- A locally declared contract resource; `selector` stands for dojo_selector(). -/
structure ContractLocal where
  common : CommonLocal
  selector : Felt
deriving DecidableEq, Repr

/-- A locally declared library resource, carrying a version string. -/
structure LibraryLocal where
  common : CommonLocal
  version : String
deriving DecidableEq, Repr

/-- A locally declared model resource. -/
structure ModelLocal where
  common : CommonLocal
deriving DecidableEq, Repr

/-- A locally declared event resource. -/
structure EventLocal where
  common : CommonLocal
deriving DecidableEq, Repr

/-- Local (declared) resources, per kind; a namespace is just its name. -/
inductive ResourceLocal
  | Namespace (name : String)
  | Contract (c : ContractLocal)
  | Library (l : LibraryLocal)
  | Model (m : ModelLocal)
  | Event (e : EventLocal)
deriving DecidableEq, Repr

/-- The remotely observed state of a contract: whether it is initialized. -/
structure ContractRemote where
  is_initialized : Bool
deriving DecidableEq, Repr

/-- Remote (observed) resources; only the fields the migration reads are kept. -/
inductive ResourceRemote
  | Namespace
  | Contract (c : ContractRemote)
  | Library
  | Model
  | Event
deriving DecidableEq, Repr

/-- A diff entry for one resource: created locally only, updated, or in sync. -/
inductive ResourceDiff
  | Created (l : ResourceLocal)
  | Updated (l : ResourceLocal) (remote : ResourceRemote)
  | Synced (l : ResourceLocal) (remote : ResourceRemote)
deriving DecidableEq, Repr

/-- The local half of a diff entry. -/
def ResourceDiff.localOf : ResourceDiff → ResourceLocal
  | .Created l => l
  | .Updated l _ => l
  | .Synced l _ => l

/-- Kind of a local resource. -/
def ResourceLocal.resource_type : ResourceLocal → ResourceType
  | .Namespace _ => .Namespace
  | .Contract _ => .Contract
  | .Library _ => .Library
  | .Model _ => .Model
  | .Event _ => .Event

/-- Kind of a remote resource. -/
def ResourceRemote.resource_type : ResourceRemote → ResourceType
  | .Namespace => .Namespace
  | .Contract _ => .Contract
  | .Library => .Library
  | .Model => .Model
  | .Event => .Event

/-- Kind of a diff entry (the kind of its local resource). -/
def ResourceDiff.resource_type (d : ResourceDiff) : ResourceType :=
  d.localOf.resource_type

/-- The human readable tag of a local resource: the name for a namespace,
namespace-name otherwise. -/
def ResourceLocal.tag : ResourceLocal → String
  | .Namespace n => n
  | .Contract c => c.common.namespace_ ++ "-" ++ c.common.name
  | .Library l => l.common.namespace_ ++ "-" ++ l.common.name
  | .Model m => m.common.namespace_ ++ "-" ++ m.common.name
  | .Event e => e.common.namespace_ ++ "-" ++ e.common.name

/-- The tag of a diff entry. -/
def ResourceDiff.tag (d : ResourceDiff) : String := d.localOf.tag

/-- The namespace of a local resource (a namespace resource is its own namespace). -/
def ResourceLocal.namespace_of : ResourceLocal → String
  | .Namespace n => n
  | .Contract c => c.common.namespace_
  | .Library l => l.common.namespace_
  | .Model m => m.common.namespace_
  | .Event e => e.common.namespace_

/-- The namespace of a diff entry. -/
def ResourceDiff.namespace_of (d : ResourceDiff) : String := d.localOf.namespace_of

/-- Well-kinded diff entries: in the data model the tagged union is specialized
per resource kind, so the remote half of an Updated or Synced entry has the
same kind as the local half. -/
def ResourceDiff.wellKinded : ResourceDiff → Bool
  | .Created _ => true
  | .Updated l remote => l.resource_type == remote.resource_type
  | .Synced l remote => l.resource_type == remote.resource_type

/-- Status of the root world (registry) contract. -/
inductive WorldStatus
  | NotDeployed
  | Synced
  | NewVersion
deriving DecidableEq, Repr

/-- The world contract information carried by the diff. -/
structure WorldInfo where
  status : WorldStatus
  class_hash : Felt
  casm_class_hash : Felt
  class_id : Felt
deriving DecidableEq, Repr

/-- A code artifact labeled with the resource tag, keyed by its casm class hash. -/
structure LabeledClass where
  label : String
  casm_class_hash : Felt
  class_id : Felt
deriving DecidableEq, Repr

/-- The set of classes to declare: casm class hash mapped to labeled class. -/
abbrev Classes := List (Felt × LabeledClass)

/-- Extend one class map with another, as HashMap::extend. -/
def extendClasses (a b : Classes) : Classes :=
  b.foldl (fun acc p => ainsert acc p.1 p.2) a

/-- A permission grant: grantee address plus optional grantee tag. -/
structure PermissionGrant where
  address : Felt
  tag : Option String
deriving DecidableEq, Repr

/-- Classification of a permission delta between local and remote state. -/
inductive PermClassification
  | localOnly
  | remoteOnly
  | synced
deriving DecidableEq, Repr

/-- A permission delta together with its classification. -/
structure ClassifiedPerm where
  grant : PermissionGrant
  classification : PermClassification
deriving DecidableEq, Repr

/-- Whether a classified permission delta is local-only. -/
def isLocalOnly (p : ClassifiedPerm) : Bool :=
  match p.classification with
  | .localOnly => true
  | _ => false

/-- Modelled from the spec: DiffPermissions::only_local (dojo_world crate, not
under src/) keeps exactly the deltas present locally but absent remotely. -/
def only_local (l : List ClassifiedPerm) : List PermissionGrant :=
  (l.filter isLocalOnly).map (fun p => p.grant)

/-- A locally declared external contract in Created state. -/
structure ExternalContractLocal where
  contract_name : String
  class_hash : Felt
  salt : Felt
  raw_constructor_data : List Felt
deriving DecidableEq, Repr

/-- Diff entry for an externally tracked contract. -/
inductive ExternalContractDiff
  | Created (c : ExternalContractLocal)
  | Synced
deriving DecidableEq, Repr

/-- A locally declared external contract class. -/
structure ExternalContractClassLocal where
  contract_name : String
  casm_class_hash : Felt
  class_id : Felt
deriving DecidableEq, Repr

/-- Diff entry for an external contract class; non-Created classes already exist. -/
inductive ExternalContractClassDiff
  | Created (c : ExternalContractClassLocal)
  | Synced
deriving DecidableEq, Repr

/-- The world diff: comparison of the local declaration with the remote
observation.  Permission accessors are modelled as functions from the resource
selector to the classified deltas. -/
structure WorldDiff where
  world_info : WorldInfo
  namespaces : List Felt
  resources : List (Felt × ResourceDiff)
  external_contracts : List (String × ExternalContractDiff)
  external_contract_classes : List (String × ExternalContractClassDiff)
  writers : Felt → List ClassifiedPerm
  owners : Felt → List ClassifiedPerm

/-- Whether a diff entry is Synced. -/
def ResourceDiff.isSyncedDiff : ResourceDiff → Bool
  | .Synced _ _ => true
  | _ => false

/-- Modelled from the spec: WorldDiff::is_synced (dojo_world crate, not under
src/) reports no divergence: the world itself is synced and every resource
diff is Synced. -/
def WorldDiff.is_synced (d : WorldDiff) : Bool :=
  (match d.world_info.status with
   | .Synced => true
   | _ => false)
  && d.resources.all (fun p => p.2.isSyncedDiff)

/-- Migration-specific configuration: explicit init ordering and multicall toggle. -/
structure MigrationConfig where
  order_inits : Option (List String)
  disable_multicall : Option Bool
deriving DecidableEq, Repr

/-- The profile configuration surface read by the migration: the skip predicate,
the raw init calldata per tag, and the migration options. -/
structure ProfileConfig where
  skipped : String → Bool
  init_call_args : Option (List (String × String))
  migration : Option MigrationConfig

/-- Whether the tag is on the configured skip list. -/
def ProfileConfig.is_skipped (cfg : ProfileConfig) (tag : String) : Bool :=
  cfg.skipped tag

/-- The raw init call argument map, defaulting to empty. -/
def cfgInitArgs (cfg : ProfileConfig) : List (String × String) :=
  cfg.init_call_args.getD []

/-- The configured ordered list of init tags, defaulting to empty. -/
def orderedInitTags (cfg : ProfileConfig) : List String :=
  (cfg.migration.map (fun m => m.order_inits.getD [])).getD []

/-! ## Calls and remote operations -/

/-- The remote mutating calls the migration can enqueue into an invoker. -/
inductive Call
  | registerNamespace (name : String)
  | registerContract (selector : Felt) (namespace_ : String) (class_hash : Felt)
  | upgradeContract (namespace_ : String) (class_hash : Felt)
  | registerLibrary (namespace_ : String) (class_hash : Felt) (name version : String)
  | registerModel (namespace_ : String) (class_hash : Felt)
  | upgradeModel (namespace_ : String) (class_hash : Felt)
  | registerEvent (namespace_ : String) (class_hash : Felt)
  | upgradeEvent (namespace_ : String) (class_hash : Felt)
  | grantWriter (selector : Felt) (address : Felt)
  | grantOwner (selector : Felt) (address : Felt)
  | initContract (selector : Felt) (args : List Felt)
  | deployExternal (class_hash : Felt) (salt : Felt) (data : List Felt)
  | upgradeWorld (class_hash : Felt)
deriving DecidableEq, Repr

/-- One remote operation, in the order the migration performs them: declaring a
class, invoking an enqueued call, or deploying a contract directly. -/
inductive RemoteOp
  | declare (casm_class_hash : Felt) (class_id : Felt)
  | invoke (call : Call)
  | deployContract (class_hash : Felt)
deriving DecidableEq, Repr

/-- Errors of the migration; the Panic constructor models a Rust process abort
(panic or expect), the others model MigrationError variants. -/
inductive MigrationError
  | InitCallArgs
  | DeclareClassError (msg : String)
  | DeclarerError (msg : String)
  | Panic (msg : String)
deriving DecidableEq, Repr

/-! ## Class declaration (artifact publication) -/

/-- Outcome of attempting to declare one class remotely: success, skipped
because the pre-check found it already declared, or a failure message. -/
inductive DeclareOutcome
  | ok
  | alreadyDeclared
  | failed (msg : String)
deriving DecidableEq, Repr

/-- Modelled from the spec: dojo_utils Declarer::declare_all (not under src/)
publishes each class in order, tolerating an already-published condition as
success (both the pre-check short-circuit and a failure message reporting the
class as already declared); any other failure aborts with its message. -/
def declare_all (outcome : Felt → DeclareOutcome) : List LabeledClass → Except String Unit
  | [] => Except.ok ()
  | c :: rest =>
    match outcome c.casm_class_hash with
    | .ok => declare_all outcome rest
    | .alreadyDeclared => declare_all outcome rest
    | .failed msg =>
        if strContains msg ("Class already declared") then declare_all outcome rest
        else Except.error msg

/-- Round-robin shard j of n: the classes at indices congruent to j modulo n,
with i the index of the first element. -/
def shardFrom (n j : Nat) : Nat → List LabeledClass → List LabeledClass
  | _, [] => []
  | i, c :: rest =>
    if i % n = j then c :: shardFrom n j (i + 1) rest else shardFrom n j (i + 1) rest

/-- The fold over the sharded declarer results: a failure whose message reports
the class as already declared is swallowed, any other failure fails the step. -/
def collect_shards : List (Except String Unit) → Except MigrationError Unit
  | [] => Except.ok ()
  | Except.ok _ :: rest => collect_shards rest
  | Except.error e :: rest =>
    if strContains e ("Class already declared") then collect_shards rest
    else Except.error (MigrationError.DeclareClassError e)

/-- declare_classes: with no extra accounts, declare everything with the
migrator account; otherwise shard the classes round-robin across the accounts,
run the declarers, and fold their results tolerating already-declared. -/
def declare_classes (nAccounts : Nat) (outcome : Felt → DeclareOutcome) (classes : Classes) :
    Except MigrationError Unit :=
  if nAccounts = 0 then
    match declare_all outcome (classes.map Prod.snd) with
    | .ok _ => Except.ok ()
    | .error e => Except.error (MigrationError.DeclarerError e)
  else
    collect_shards ((List.range nAccounts).map
      (fun j => declare_all outcome (shardFrom nAccounts j 0 (classes.map Prod.snd))))

/-! ## Per-kind resource synchronizers -/

/-- contracts_calls_classes: a Created contract yields its class and a register
call; an Updated contract yields its new class and an upgrade call. -/
def contracts_calls_classes (resource : ResourceDiff) :
    Except MigrationError (List Call × Classes) :=
  let ns := resource.namespace_of
  let tag := resource.tag
  let created : List Call × Classes :=
    match resource with
    | .Created (.Contract contract) =>
        ([Call.registerContract contract.selector ns contract.common.class_hash],
         ainsert ([] : Classes) contract.common.casm_class_hash
           { label := tag, casm_class_hash := contract.common.casm_class_hash,
             class_id := contract.common.class_id })
    | _ => ([], [])
  let updated : List Call × Classes :=
    match resource with
    | .Updated (.Contract contract_local) (.Contract _) =>
        ([Call.upgradeContract ns contract_local.common.class_hash],
         ainsert ([] : Classes) contract_local.common.casm_class_hash
           { label := tag, casm_class_hash := contract_local.common.casm_class_hash,
             class_id := contract_local.common.class_id })
    | _ => ([], [])
  Except.ok (created.1 ++ updated.1, extendClasses created.2 updated.2)

/-- libraries_calls_classes: a Created library yields its class and a register
call carrying name and version; an Updated library is a fatal internal error. -/
def libraries_calls_classes (resource : ResourceDiff) :
    Except MigrationError (List Call × Classes) :=
  let ns := resource.namespace_of
  let tag := resource.tag
  let created : List Call × Classes :=
    match resource with
    | .Created (.Library library) =>
        ([Call.registerLibrary ns library.common.class_hash library.common.name library.version],
         ainsert ([] : Classes) library.common.casm_class_hash
           { label := tag, casm_class_hash := library.common.casm_class_hash,
             class_id := library.common.class_id })
    | _ => ([], [])
  match resource with
  | .Updated (.Library _) (.Library) =>
      Except.error (MigrationError.Panic ("libraries cannot be updated!"))
  | _ => Except.ok (created.1, created.2)

/-- models_calls_classes: register on Created, upgrade on Updated. -/
def models_calls_classes (resource : ResourceDiff) :
    Except MigrationError (List Call × Classes) :=
  let ns := resource.namespace_of
  let tag := resource.tag
  let created : List Call × Classes :=
    match resource with
    | .Created (.Model model) =>
        ([Call.registerModel ns model.common.class_hash],
         ainsert ([] : Classes) model.common.casm_class_hash
           { label := tag, casm_class_hash := model.common.casm_class_hash,
             class_id := model.common.class_id })
    | _ => ([], [])
  let updated : List Call × Classes :=
    match resource with
    | .Updated (.Model model_local) (.Model) =>
        ([Call.upgradeModel ns model_local.common.class_hash],
         ainsert ([] : Classes) model_local.common.casm_class_hash
           { label := tag, casm_class_hash := model_local.common.casm_class_hash,
             class_id := model_local.common.class_id })
    | _ => ([], [])
  Except.ok (created.1 ++ updated.1, extendClasses created.2 updated.2)

/-- events_calls_classes: register on Created, upgrade on Updated. -/
def events_calls_classes (resource : ResourceDiff) :
    Except MigrationError (List Call × Classes) :=
  let ns := resource.namespace_of
  let tag := resource.tag
  let created : List Call × Classes :=
    match resource with
    | .Created (.Event event) =>
        ([Call.registerEvent ns event.common.class_hash],
         ainsert ([] : Classes) event.common.casm_class_hash
           { label := tag, casm_class_hash := event.common.casm_class_hash,
             class_id := event.common.class_id })
    | _ => ([], [])
  let updated : List Call × Classes :=
    match resource with
    | .Updated (.Event event_local) (.Event) =>
        ([Call.upgradeEvent ns event_local.common.class_hash],
         ainsert ([] : Classes) event_local.common.casm_class_hash
           { label := tag, casm_class_hash := event_local.common.casm_class_hash,
             class_id := event_local.common.class_id })
    | _ => ([], [])
  Except.ok (created.1 ++ updated.1, extendClasses created.2 updated.2)

/-- Dispatch on the resource type, as the match in the sync_resources loop; a
namespace (or any other kind) contributes nothing there. -/
def resource_calls_classes (resource : ResourceDiff) :
    Except MigrationError (List Call × Classes) :=
  match resource.resource_type with
  | .Contract => contracts_calls_classes resource
  | .Library => libraries_calls_classes resource
  | .Model => models_calls_classes resource
  | .Event => events_calls_classes resource
  | .Namespace => Except.ok ([], [])

/-! ## sync_resources -/

/-- namespaces_getcalls: for every namespace selector of the diff, look the
resource up (a missing entry is a process abort) and emit a register call when
its diff is Created. -/
def namespaces_getcalls_aux (resources : List (Felt × ResourceDiff)) :
    List Felt → Except MigrationError (List Call)
  | [] => Except.ok []
  | s :: rest =>
    match alookup resources s with
    | none => Except.error (MigrationError.Panic ("Namespace not found in diff."))
    | some r =>
      match namespaces_getcalls_aux resources rest with
      | .error e => Except.error e
      | .ok tail =>
        match r with
        | .Created (.Namespace name) => Except.ok (Call.registerNamespace name :: tail)
        | _ => Except.ok tail

/-- The namespace registration calls of the diff. -/
def namespaces_getcalls (diff : WorldDiff) : Except MigrationError (List Call) :=
  namespaces_getcalls_aux diff.resources diff.namespaces

/-- Accumulator of the sync_resources loop: the invoker calls, the classes to
declare, and the count of changed resources. -/
structure SyncAcc where
  calls : List Call
  classes : Classes
  n : Nat
deriving DecidableEq, Repr

/-- One iteration of the sync_resources loop: skip-listed resources are passed
over, otherwise the per-kind calls and classes are collected. -/
def syncStep (cfg : ProfileConfig) (acc : SyncAcc) (r : ResourceDiff) :
    Except MigrationError SyncAcc :=
  if cfg.is_skipped r.tag then Except.ok acc
  else
    match resource_calls_classes r with
    | .error e => Except.error e
    | .ok (cl, cs) =>
        Except.ok
          { calls := acc.calls ++ cl
            classes := extendClasses acc.classes cs
            n := if cl.isEmpty then acc.n else acc.n + 1 }

/-- The sync_resources loop over the diff resources. -/
def syncLoop (cfg : ProfileConfig) : List ResourceDiff → SyncAcc →
    Except MigrationError SyncAcc
  | [], acc => Except.ok acc
  | r :: rest, acc =>
    match syncStep cfg acc r with
    | .error e => Except.error e
    | .ok acc2 => syncLoop cfg rest acc2

/-- The collection phase of sync_resources: namespace calls first, then the
per-resource calls and classes. -/
def sync_resources_collect (diff : WorldDiff) (cfg : ProfileConfig) :
    Except MigrationError SyncAcc :=
  match namespaces_getcalls diff with
  | .error e => Except.error e
  | .ok nsCalls => syncLoop cfg (diff.resources.map Prod.snd) { calls := nsCalls, classes := [], n := 0 }

/-- sync_resources: collect calls and classes, declare all classes, then flush
the invoker; the trace places every declaration before every call. -/
def sync_resources (diff : WorldDiff) (cfg : ProfileConfig) (nAccounts : Nat)
    (outcome : Felt → DeclareOutcome) : Except MigrationError (Bool × List RemoteOp) :=
  match sync_resources_collect diff cfg with
  | .error e => Except.error e
  | .ok acc =>
    match declare_classes nAccounts outcome acc.classes with
    | .error e => Except.error e
    | .ok _ =>
      Except.ok (!acc.classes.isEmpty || !acc.calls.isEmpty,
        acc.classes.map (fun p => RemoteOp.declare p.1 p.2.class_id)
          ++ acc.calls.map RemoteOp.invoke)

/-! ## sync_permissions -/

/-- The permission grant calls of one resource: one writer grant per local-only
writer delta, then one owner grant per local-only owner delta. -/
def permBlock (diff : WorldDiff) (p : Felt × ResourceDiff) : List Call :=
  (only_local (diff.writers p.1)).map (fun g => Call.grantWriter p.1 g.address)
    ++ (only_local (diff.owners p.1)).map (fun g => Call.grantOwner p.1 g.address)

/-- The sync_permissions loop: skip-listed resources are passed over, otherwise
the writer grants then the owner grants of the resource are enqueued. -/
def permLoop (diff : WorldDiff) (cfg : ProfileConfig) :
    List (Felt × ResourceDiff) → List Call → List Call
  | [], invoker => invoker
  | p :: rest, invoker =>
    if cfg.is_skipped p.2.tag then permLoop diff cfg rest invoker
    else permLoop diff cfg rest (invoker ++ permBlock diff p)

/-- The calls enqueued by sync_permissions. -/
def sync_permissions_calls (diff : WorldDiff) (cfg : ProfileConfig) : List Call :=
  permLoop diff cfg diff.resources []

/-- sync_permissions: apply the local-only permission deltas of every
non-skipped resource; reports whether any grant was issued. -/
def sync_permissions (diff : WorldDiff) (cfg : ProfileConfig) : Bool × List RemoteOp :=
  let calls := sync_permissions_calls diff cfg
  (!calls.isEmpty, calls.map RemoteOp.invoke)

/-! ## initialize_contracts -/

/-- The (do_init, raw args) decision of the initialize_contracts loop: a Created
contract always inits; an Updated or Synced contract inits when the remote
observation is not yet initialized; anything else does not init. -/
def initDecision (cfg : ProfileConfig) (resource : ResourceDiff) : Bool × Option String :=
  match resource with
  | .Created (.Contract _) => (true, alookup (cfgInitArgs cfg) resource.tag)
  | .Updated _ (.Contract contract) =>
      (!contract.is_initialized, alookup (cfgInitArgs cfg) resource.tag)
  | .Synced _ (.Contract contract) =>
      (!contract.is_initialized, alookup (cfgInitArgs cfg) resource.tag)
  | _ => (false, none)

/-- Decoding of the configured raw init calldata: an absent entry is an empty
argument list, a malformed entry is a fatal InitCallArgs error. -/
def initArgsOf (decode : String → Option (List Felt)) (rawOpt : Option String) :
    Except MigrationError (List Felt) :=
  match rawOpt with
  | some raw =>
    match decode raw with
    | some a => Except.ok a
    | none => Except.error MigrationError.InitCallArgs
  | none => Except.ok []

/-- One iteration of the initialize_contracts loop over a (selector, resource)
entry, threading the invoker calls and the order-indexed call map. -/
def initStep (cfg : ProfileConfig) (decode : String → Option (List Felt))
    (p : Felt × ResourceDiff) (invoker : List Call) (m : List (Nat × Call)) :
    Except MigrationError (List Call × List (Nat × Call)) :=
  if p.2.resource_type = ResourceType.Contract then
    if cfg.is_skipped p.2.tag then Except.ok (invoker, m)
    else
      let di := initDecision cfg p.2
      if di.1 then
        match initArgsOf decode di.2 with
        | .error e => Except.error e
        | .ok args =>
          match listPosition (orderedInitTags cfg) p.2.tag with
          | some i => Except.ok (invoker, ainsert m i (Call.initContract p.1 args))
          | none => Except.ok (invoker ++ [Call.initContract p.1 args], m)
      else Except.ok (invoker, m)
  else Except.ok (invoker, m)

/-- The initialize_contracts loop over the diff resources. -/
def initLoop (cfg : ProfileConfig) (decode : String → Option (List Felt)) :
    List (Felt × ResourceDiff) → List Call → List (Nat × Call) →
    Except MigrationError (List Call × List (Nat × Call))
  | [], invoker, m => Except.ok (invoker, m)
  | p :: rest, invoker, m =>
    match initStep cfg decode p invoker m with
    | .error e => Except.error e
    | .ok (invoker2, m2) => initLoop cfg decode rest invoker2 m2

/-- The full init call sequence: the unordered calls in scan order, then the
order-listed calls sorted by their position in the order list. -/
def initialize_contracts_calls (diff : WorldDiff) (cfg : ProfileConfig)
    (decode : String → Option (List Felt)) : Except MigrationError (List Call) :=
  match initLoop cfg decode diff.resources [] [] with
  | .error e => Except.error e
  | .ok (invoker, m) =>
    if m.isEmpty then Except.ok invoker
    else
      let orderedKeys := List.insertionSort (· ≤ ·) (m.map Prod.fst)
      Except.ok (invoker ++ orderedKeys.filterMap (alookup m))

/-- initialize_contracts: compute the init calls and flush them; reports whether
any contract was initialized. -/
def initialize_contracts (diff : WorldDiff) (cfg : ProfileConfig)
    (decode : String → Option (List Felt)) : Except MigrationError (Bool × List RemoteOp) :=
  match initialize_contracts_calls diff cfg decode with
  | .error e => Except.error e
  | .ok calls => Except.ok (!calls.isEmpty, calls.map RemoteOp.invoke)

/-! ## sync_external_contracts -/

/-- external_contract_classes: the class info to declare for a Created external
contract class; None when the class already exists. -/
def external_contract_classes (contract_class : ExternalContractClassDiff) :
    Option (Felt × LabeledClass) :=
  match contract_class with
  | .Created c =>
      some (c.casm_class_hash,
        { label := c.contract_name, casm_class_hash := c.casm_class_hash,
          class_id := c.class_id })
  | _ => none

/-- The external contract classes collected for declaration. -/
def external_classes_collected (diff : WorldDiff) : Classes :=
  ((diff.external_contract_classes.map Prod.snd).filterMap external_contract_classes).foldl
    (fun acc p => ainsert acc p.1 p.2) []

/-- Modelled from the spec: Deployer::deploy_via_udc_getcall (dojo_utils, not
under src/) returns the deterministic deployment call for a Created external
contract, from its class hash, salt, and raw constructor data. -/
def external_deploy_call : ExternalContractDiff → Option Call
  | .Created contract =>
      some (Call.deployExternal contract.class_hash contract.salt contract.raw_constructor_data)
  | _ => none

/-- The deployment calls of the external contracts in Created state. -/
def external_deploy_calls (diff : WorldDiff) : List Call :=
  (diff.external_contracts.map Prod.snd).filterMap external_deploy_call

/-- sync_external_contracts: declare the Created external classes, then deploy
the Created external contracts; declarations precede deployments in the trace. -/
def sync_external_contracts (diff : WorldDiff) (cfg : ProfileConfig) (nAccounts : Nat)
    (outcome : Felt → DeclareOutcome) : Except MigrationError (Bool × List RemoteOp) :=
  let classes := external_classes_collected diff
  match declare_classes nAccounts outcome classes with
  | .error e => Except.error e
  | .ok _ =>
    let calls := external_deploy_calls diff
    Except.ok (!calls.isEmpty,
      classes.map (fun p => RemoteOp.declare p.1 p.2.class_id) ++ calls.map RemoteOp.invoke)

/-! ## ensure_world and migrate -/

/-- ensure_world: deploy the world when not deployed (declare its class then
deploy), upgrade it on a new version (declare then one upgrade call), no-op
when synced.  Receipt waiting and progress output are not modelled. -/
def ensure_world (diff : WorldDiff) : Except MigrationError (Bool × List RemoteOp) :=
  match diff.world_info.status with
  | .Synced => Except.ok (false, [])
  | .NotDeployed =>
      Except.ok (true,
        [RemoteOp.declare diff.world_info.casm_class_hash diff.world_info.class_id,
         RemoteOp.deployContract diff.world_info.class_hash])
  | .NewVersion =>
      Except.ok (true,
        [RemoteOp.declare diff.world_info.casm_class_hash diff.world_info.class_id,
         RemoteOp.invoke (Call.upgradeWorld diff.world_info.class_hash)])

/-- migrate: ensure the world (outside guest mode), sync the resources when the
diff diverges, sync the permissions, initialize the contracts, sync the
external contracts; has_changes aggregates the per-step flags and the trace
concatenates the per-step remote operations in execution order. -/
def migrate (diff : WorldDiff) (cfg : ProfileConfig) (decode : String → Option (List Felt))
    (guest : Bool) (nAccounts : Nat) (outcome : Felt → DeclareOutcome) :
    Except MigrationError (Bool × List RemoteOp) :=
  match (if !guest then ensure_world diff else Except.ok (false, [])) with
  | .error e => Except.error e
  | .ok wres =>
    match (if !diff.is_synced then sync_resources diff cfg nAccounts outcome
           else Except.ok (false, [])) with
    | .error e => Except.error e
    | .ok rres =>
      let pres := sync_permissions diff cfg
      match initialize_contracts diff cfg decode with
      | .error e => Except.error e
      | .ok cres =>
        match sync_external_contracts diff cfg nAccounts outcome with
        | .error e => Except.error e
        | .ok eres =>
          Except.ok (wres.1 || rres.1 || pres.1 || eres.1 || cres.1,
            wres.2 ++ rres.2 ++ pres.2 ++ cres.2 ++ eres.2)

/-! ## Claim-side predicates -/

/-- Init eligibility as the spec states it: Created contracts always, Updated
or Synced contracts exactly when the remote observation is not initialized. -/
def initEligible : ResourceDiff → Bool
  | .Created (.Contract _) => true
  | .Updated _ (.Contract c) => !c.is_initialized
  | .Synced _ (.Contract c) => !c.is_initialized
  | _ => false

/-- Whether a call is the init call of the given selector. -/
def isInitCallFor (sel : Felt) : Call → Bool
  | .initContract s _ => s == sel
  | _ => false

/-- Whether a call is a permission grant targeting the given selector. -/
def isGrantFor (sel : Felt) : Call → Bool
  | .grantWriter s _ => s == sel
  | .grantOwner s _ => s == sel
  | _ => false

/-- How many init calls of the given selector a call list holds. -/
def countInitCalls (sel : Felt) (calls : List Call) : Nat :=
  calls.countP (fun c => isInitCallFor sel c)

/-- How many init calls of the given selector the order-indexed map holds. -/
def countInitMap (sel : Felt) (m : List (Nat × Call)) : Nat :=
  m.countP (fun q => isInitCallFor sel q.2)

/-- Outcomes that the publication layer treats as success: a clean success, the
already-declared pre-check, or a failure message reporting the class as
already declared. -/
def swallowableOutcome : DeclareOutcome → Bool
  | .ok => true
  | .alreadyDeclared => true
  | .failed msg => strContains msg ("Class already declared")

/-! ## Concrete sample inputs used to exercise the definitions -/

/-- A sample local resource common block. -/
def sampleCommon : CommonLocal :=
  { namespace_ := "ns", name := "c1", class_hash := 10, casm_class_hash := 11, class_id := 12 }

/-- A sample Created contract diff entry. -/
def sampleContractDiff : ResourceDiff :=
  ResourceDiff.Created (ResourceLocal.Contract { common := sampleCommon, selector := 100 })

/-- A sample world info in Synced state. -/
def sampleWorldInfo : WorldInfo :=
  { status := WorldStatus.Synced, class_hash := 1, casm_class_hash := 2, class_id := 3 }

/-- A sample diff with one Created namespace and one Created contract in it. -/
def sampleDiff : WorldDiff :=
  { world_info := sampleWorldInfo
    namespaces := [7]
    resources := [(7, ResourceDiff.Created (ResourceLocal.Namespace "ns")), (100, sampleContractDiff)]
    external_contracts := []
    external_contract_classes := []
    writers := fun _ => []
    owners := fun _ => [] }

/-- A sample configuration with nothing skipped, no init args, no options. -/
def sampleCfg : ProfileConfig :=
  { skipped := fun _ => false, init_call_args := none, migration := none }

/-- An entirely empty, synced diff. -/
def emptyDiff : WorldDiff :=
  { world_info := sampleWorldInfo
    namespaces := []
    resources := []
    external_contracts := []
    external_contract_classes := []
    writers := fun _ => []
    owners := fun _ => [] }

/-- A sample diff whose namespaces are in Created, Updated and Synced state. -/
def sampleNsDiff : WorldDiff :=
  { world_info := sampleWorldInfo
    namespaces := [1, 2, 3]
    resources :=
      [(1, ResourceDiff.Created (ResourceLocal.Namespace "a")),
       (2, ResourceDiff.Updated (ResourceLocal.Namespace "b") ResourceRemote.Namespace),
       (3, ResourceDiff.Synced (ResourceLocal.Namespace "c") ResourceRemote.Namespace)]
    external_contracts := []
    external_contract_classes := []
    writers := fun _ => []
    owners := fun _ => [] }

/-- A sample diff exercising the permission synchronizer: one contract whose
writer deltas are local-only, remote-only and synced, and one local-only owner
delta. -/
def samplePermDiff : WorldDiff :=
  { world_info := sampleWorldInfo
    namespaces := []
    resources := [(100, sampleContractDiff)]
    external_contracts := []
    external_contract_classes := []
    writers := fun s =>
      if s = 100 then
        [{ grant := { address := 21, tag := none }, classification := PermClassification.localOnly },
         { grant := { address := 22, tag := none }, classification := PermClassification.remoteOnly },
         { grant := { address := 23, tag := none }, classification := PermClassification.synced }]
      else []
    owners := fun s =>
      if s = 100 then
        [{ grant := { address := 31, tag := none }, classification := PermClassification.localOnly }]
      else [] }

/-- A configuration skipping exactly the tag of the sample namespace. -/
def skipNsCfg : ProfileConfig :=
  { skipped := fun t => t == "ns", init_call_args := none, migration := none }

/-- A diff holding one Created namespace only. -/
def skipNsDiff : WorldDiff :=
  { world_info := sampleWorldInfo
    namespaces := [7]
    resources := [(7, ResourceDiff.Created (ResourceLocal.Namespace "ns"))]
    external_contracts := []
    external_contract_classes := []
    writers := fun _ => []
    owners := fun _ => [] }

/-- A sample labeled class. -/
def sampleLabeled : LabeledClass :=
  { label := "ns-c1", casm_class_hash := 11, class_id := 12 }

/-- A sample common block for the contract tagged o-a. -/
def orderCommonA : CommonLocal :=
  { namespace_ := "o", name := "a", class_hash := 40, casm_class_hash := 41, class_id := 42 }

/-- A sample common block for the contract tagged o-b. -/
def orderCommonB : CommonLocal :=
  { namespace_ := "o", name := "b", class_hash := 50, casm_class_hash := 51, class_id := 52 }

/-- A Created contract tagged o-a with selector 1. -/
def orderContractA : ResourceDiff :=
  ResourceDiff.Created (ResourceLocal.Contract { common := orderCommonA, selector := 1 })

/-- A Created contract tagged o-b with selector 2. -/
def orderContractB : ResourceDiff :=
  ResourceDiff.Created (ResourceLocal.Contract { common := orderCommonB, selector := 2 })

/-- A configuration whose init order list is [o-b, o-a]. -/
def sampleOrderCfg : ProfileConfig :=
  { skipped := fun _ => false
    init_call_args := none
    migration := some { order_inits := some ["o-b", "o-a"], disable_multicall := none } }

/-- A diff scanning contract o-a before contract o-b. -/
def sampleOrderDiff : WorldDiff :=
  { world_info := sampleWorldInfo
    namespaces := []
    resources := [(1, orderContractA), (2, orderContractB)]
    external_contracts := []
    external_contract_classes := []
    writers := fun _ => []
    owners := fun _ => [] }

/-! ## Helper lemmas on the association-list operations -/

theorem ainsert_map_fst {κ ν : Type} [DecidableEq κ] (m : List (κ × ν)) (k : κ) (v : ν) :
    (ainsert m k v).map Prod.fst =
      if k ∈ m.map Prod.fst then m.map Prod.fst else m.map Prod.fst ++ [k] := by
  unfold ainsert
  by_cases h : k ∈ m.map Prod.fst
  · simp only [h, if_true, List.map_map]
    apply List.map_congr_left
    intro p _
    by_cases hk : p.1 = k <;> simp [hk]
  · simp [h]

theorem mem_keys_ainsert_old {κ ν : Type} [DecidableEq κ] {m : List (κ × ν)} {x k : κ} {v : ν}
    (hx : x ∈ m.map Prod.fst) : x ∈ (ainsert m k v).map Prod.fst := by
  rw [ainsert_map_fst]
  split <;> simp [hx]

theorem mem_keys_ainsert_self {κ ν : Type} [DecidableEq κ] (m : List (κ × ν)) (k : κ) (v : ν) :
    k ∈ (ainsert m k v).map Prod.fst := by
  rw [ainsert_map_fst]
  split
  · assumption
  · simp

theorem mem_ainsert {κ ν : Type} [DecidableEq κ] {m : List (κ × ν)} {q : κ × ν} {k : κ} {v : ν}
    (hq : q ∈ ainsert m k v) : q = (k, v) ∨ q ∈ m := by
  unfold ainsert at hq
  split at hq
  · obtain ⟨p, hp, he⟩ := List.mem_map.mp hq
    by_cases hk : p.1 = k
    · simp [hk] at he
      exact Or.inl he.symm
    · simp [hk] at he
      exact Or.inr (he ▸ hp)
  · rcases List.mem_append.mp hq with h | h
    · exact Or.inr h
    · simp at h
      exact Or.inl h

theorem keys_extendClasses_left (b : Classes) :
    ∀ (a : Classes), ∀ x ∈ a.map Prod.fst, x ∈ (extendClasses a b).map Prod.fst := by
  induction b with
  | nil => intro a x hx; simpa [extendClasses] using hx
  | cons p b ih =>
    intro a x hx
    have : extendClasses a (p :: b) = extendClasses (ainsert a p.1 p.2) b := rfl
    rw [this]
    exact ih (ainsert a p.1 p.2) x (mem_keys_ainsert_old hx)

theorem keys_extendClasses_right (b : Classes) :
    ∀ (a : Classes), ∀ x ∈ b.map Prod.fst, x ∈ (extendClasses a b).map Prod.fst := by
  induction b with
  | nil => intro a x hx; simp at hx
  | cons p b ih =>
    intro a x hx
    have hstep : extendClasses a (p :: b) = extendClasses (ainsert a p.1 p.2) b := rfl
    rw [hstep]
    have hx2 : x = p.1 ∨ x ∈ b.map Prod.fst := by
      rcases List.mem_cons.mp (by simpa using hx : x ∈ p.1 :: b.map Prod.fst) with h | h
      · exact Or.inl h
      · exact Or.inr h
    rcases hx2 with h | h
    · subst h
      exact keys_extendClasses_left b _ _ (mem_keys_ainsert_self a _ p.2)
    · exact ih _ x h

/-! ## Helper lemmas on the sync_resources loop -/

theorem syncStep_state {cfg : ProfileConfig} {acc acc2 : SyncAcc} {r : ResourceDiff}
    (hs : syncStep cfg acc r = Except.ok acc2) :
    (cfg.is_skipped r.tag = true ∧ acc2 = acc) ∨
    (cfg.is_skipped r.tag = false ∧ ∃ cl cs,
      resource_calls_classes r = Except.ok (cl, cs) ∧
      acc2.calls = acc.calls ++ cl ∧ acc2.classes = extendClasses acc.classes cs) := by
  unfold syncStep at hs
  by_cases hsk : cfg.is_skipped r.tag
  · left
    refine ⟨hsk, ?_⟩
    simp [hsk] at hs
    exact hs.symm
  · right
    refine ⟨by simpa using hsk, ?_⟩
    simp only [hsk, if_neg, Bool.false_eq_true, not_false_eq_true, if_false] at hs
    cases hr : resource_calls_classes r with
    | error e => rw [hr] at hs; cases hs
    | ok p =>
      rw [hr] at hs
      cases p with
      | mk cl cs =>
        refine ⟨cl, cs, rfl, ?_, ?_⟩ <;> cases hs <;> rfl

theorem syncLoop_calls_prefix (cfg : ProfileConfig) :
    ∀ (l : List ResourceDiff) (acc acc' : SyncAcc),
      syncLoop cfg l acc = Except.ok acc' → ∃ added, acc'.calls = acc.calls ++ added := by
  intro l
  induction l with
  | nil =>
    intro acc acc' h
    simp [syncLoop] at h
    exact ⟨[], by simp [← h]⟩
  | cons r rest ih =>
    intro acc acc' h
    simp only [syncLoop] at h
    cases hs : syncStep cfg acc r with
    | error e => rw [hs] at h; cases h
    | ok acc2 =>
      rw [hs] at h
      obtain ⟨added, ha⟩ := ih acc2 acc' h
      rcases syncStep_state hs with ⟨_, heq⟩ | ⟨_, cl, cs, _, hcalls, _⟩
      · exact ⟨added, by rw [ha, heq]⟩
      · exact ⟨cl ++ added, by rw [ha, hcalls, List.append_assoc]⟩

theorem syncLoop_keys_mono (cfg : ProfileConfig) :
    ∀ (l : List ResourceDiff) (acc acc' : SyncAcc),
      syncLoop cfg l acc = Except.ok acc' →
      ∀ x ∈ acc.classes.map Prod.fst, x ∈ acc'.classes.map Prod.fst := by
  intro l
  induction l with
  | nil =>
    intro acc acc' h x hx
    simp [syncLoop] at h
    rwa [← h]
  | cons r rest ih =>
    intro acc acc' h x hx
    simp only [syncLoop] at h
    cases hs : syncStep cfg acc r with
    | error e => rw [hs] at h; cases h
    | ok acc2 =>
      rw [hs] at h
      refine ih acc2 acc' h x ?_
      rcases syncStep_state hs with ⟨_, heq⟩ | ⟨_, cl, cs, _, _, hcls⟩
      · rwa [heq]
      · rw [hcls]
        exact keys_extendClasses_left cs acc.classes x hx

theorem syncLoop_coverage (cfg : ProfileConfig) :
    ∀ (l : List ResourceDiff) (acc acc' : SyncAcc) (r : ResourceDiff),
      r ∈ l → cfg.is_skipped r.tag = false →
      ∀ cl cs, resource_calls_classes r = Except.ok (cl, cs) →
      syncLoop cfg l acc = Except.ok acc' →
      ∀ k ∈ cs.map Prod.fst, k ∈ acc'.classes.map Prod.fst := by
  intro l
  induction l with
  | nil => intro acc acc' r hr; cases hr
  | cons hd rest ih =>
    intro acc acc' r hr hskip cl cs hcc h k hk
    simp only [syncLoop] at h
    cases hs : syncStep cfg acc hd with
    | error e => rw [hs] at h; cases h
    | ok acc2 =>
      rw [hs] at h
      rcases List.mem_cons.mp hr with heq | hmem
      · subst heq
        rcases syncStep_state hs with ⟨hsk, _⟩ | ⟨_, cl2, cs2, hcc2, _, hcls⟩
        · rw [hskip] at hsk; cases hsk
        · rw [hcc] at hcc2
          cases hcc2
          refine syncLoop_keys_mono cfg rest acc2 acc' h k ?_
          rw [hcls]
          exact keys_extendClasses_right cs acc.classes k hk
      · exact ih acc2 acc' r hmem hskip cl cs hcc h k hk

theorem syncLoop_call_mem (cfg : ProfileConfig) :
    ∀ (l : List ResourceDiff) (acc acc' : SyncAcc) (r : ResourceDiff) (c : Call),
      r ∈ l → cfg.is_skipped r.tag = false →
      ∀ cl cs, resource_calls_classes r = Except.ok (cl, cs) → c ∈ cl →
      syncLoop cfg l acc = Except.ok acc' →
      ∃ added, acc'.calls = acc.calls ++ added ∧ c ∈ added := by
  intro l
  induction l with
  | nil => intro acc acc' r c hr; cases hr
  | cons hd rest ih =>
    intro acc acc' r c hr hskip cl cs hcc hc h
    simp only [syncLoop] at h
    cases hs : syncStep cfg acc hd with
    | error e => rw [hs] at h; cases h
    | ok acc2 =>
      rw [hs] at h
      rcases List.mem_cons.mp hr with heq | hmem
      · subst heq
        rcases syncStep_state hs with ⟨hsk, _⟩ | ⟨_, cl2, cs2, hcc2, hcalls, _⟩
        · rw [hskip] at hsk; cases hsk
        · rw [hcc] at hcc2
          cases hcc2
          obtain ⟨added2, ha2⟩ := syncLoop_calls_prefix cfg rest acc2 acc' h
          refine ⟨cl ++ added2, ?_, by simp [hc]⟩
          rw [ha2, hcalls, List.append_assoc]
      · obtain ⟨added, ha, hcadd⟩ := ih acc2 acc' r c hmem hskip cl cs hcc hc h
        rcases syncStep_state hs with ⟨_, heq⟩ | ⟨_, cl2, cs2, _, hcalls, _⟩
        · exact ⟨added, by rw [ha, heq], hcadd⟩
        · exact ⟨cl2 ++ added, by rw [ha, hcalls, List.append_assoc], by simp [hcadd]⟩

/-! ## Helper lemmas on namespaces_getcalls -/

theorem namespaces_getcalls_aux_eq (resources : List (Felt × ResourceDiff)) :
    ∀ (sels : List Felt) (ns : List Call),
      namespaces_getcalls_aux resources sels = Except.ok ns →
      ns = sels.filterMap (fun s =>
        match alookup resources s with
        | some (ResourceDiff.Created (ResourceLocal.Namespace name)) =>
            some (Call.registerNamespace name)
        | _ => none) := by
  intro sels
  induction sels with
  | nil =>
    intro ns h
    simp [namespaces_getcalls_aux] at h
    simp [← h]
  | cons s rest ih =>
    intro ns h
    simp only [namespaces_getcalls_aux] at h
    cases hl : alookup resources s with
    | none => rw [hl] at h; cases h
    | some r =>
      rw [hl] at h
      cases hrec : namespaces_getcalls_aux resources rest with
      | error e => rw [hrec] at h; cases h
      | ok tail =>
        rw [hrec] at h
        have htail := ih tail hrec
        cases r with
        | Created l =>
          cases l with
          | Namespace name =>
            cases h
            simp only [List.filterMap_cons, hl]
            rw [← htail]
          | Contract c => cases h; simp [List.filterMap_cons, hl, ← htail]
          | Library c => cases h; simp [List.filterMap_cons, hl, ← htail]
          | Model c => cases h; simp [List.filterMap_cons, hl, ← htail]
          | Event c => cases h; simp [List.filterMap_cons, hl, ← htail]
        | Updated l remote => cases h; simp [List.filterMap_cons, hl, ← htail]
        | Synced l remote => cases h; simp [List.filterMap_cons, hl, ← htail]

theorem namespaces_getcalls_mem {diff : WorldDiff} {ns : List Call} {s : Felt} {name : String}
    (hok : namespaces_getcalls diff = Except.ok ns)
    (hs : s ∈ diff.namespaces)
    (hl : alookup diff.resources s =
      some (ResourceDiff.Created (ResourceLocal.Namespace name))) :
    Call.registerNamespace name ∈ ns := by
  have := namespaces_getcalls_aux_eq diff.resources diff.namespaces ns hok
  rw [this]
  refine List.mem_filterMap.mpr ⟨s, hs, ?_⟩
  rw [hl]

theorem resource_calls_nonempty_classes {r : ResourceDiff} {cl : List Call} {cs : Classes}
    (hcc : resource_calls_classes r = Except.ok (cl, cs)) (hcl : cl ≠ []) : cs ≠ [] := by
  cases r with
  | Created l =>
    cases l <;>
      simp_all [resource_calls_classes, ResourceDiff.resource_type, ResourceDiff.localOf,
        ResourceLocal.resource_type, contracts_calls_classes, libraries_calls_classes,
        models_calls_classes, events_calls_classes, extendClasses, ainsert] <;>
      (intro hnil; rw [← hcc.2] at hnil; simp at hnil)
  | Updated l remote =>
    cases l <;> cases remote <;>
      simp_all [resource_calls_classes, ResourceDiff.resource_type, ResourceDiff.localOf,
        ResourceLocal.resource_type, contracts_calls_classes, libraries_calls_classes,
        models_calls_classes, events_calls_classes, extendClasses, ainsert] <;>
      (intro hnil; rw [← hcc.2] at hnil; simp at hnil)
  | Synced l remote =>
    cases l <;> cases remote <;>
      simp_all [resource_calls_classes, ResourceDiff.resource_type, ResourceDiff.localOf,
        ResourceLocal.resource_type, contracts_calls_classes, libraries_calls_classes,
        models_calls_classes, events_calls_classes, extendClasses, ainsert] <;>
      (intro hnil; rw [← hcc.2] at hnil; simp at hnil)

/-! ## Claim theorems -/

/-- C1: in sync_resources every collected class is passed to declare_classes
and the declarations complete before the invoker flushes any register or
upgrade call (the trace is the declarations followed by the calls), and every
non-skipped resource that emits a call also contributed its class to the
declared batch; likewise in sync_external_contracts the class declarations
complete before the deployment calls, and every Created external class is in
the declared batch. -/
theorem publication_before_reference (diff : WorldDiff) (cfg : ProfileConfig)
    (nAccounts : Nat) (outcome : Felt → DeclareOutcome) (b : Bool) (ops : List RemoteOp) :
    (sync_resources diff cfg nAccounts outcome = Except.ok (b, ops) →
      ∃ acc, sync_resources_collect diff cfg = Except.ok acc ∧
        ops = acc.classes.map (fun p => RemoteOp.declare p.1 p.2.class_id)
            ++ acc.calls.map RemoteOp.invoke ∧
        (∀ sel r, (sel, r) ∈ diff.resources → cfg.is_skipped r.tag = false →
          ∀ cl cs, resource_calls_classes r = Except.ok (cl, cs) → cl ≠ [] →
            cs ≠ [] ∧ ∀ k ∈ cs.map Prod.fst, k ∈ acc.classes.map Prod.fst))
    ∧ (sync_external_contracts diff cfg nAccounts outcome = Except.ok (b, ops) →
        ops = (external_classes_collected diff).map
              (fun p => RemoteOp.declare p.1 p.2.class_id)
            ++ (external_deploy_calls diff).map RemoteOp.invoke ∧
        ∀ q ∈ diff.external_contract_classes, ∀ k lc,
          external_contract_classes q.2 = some (k, lc) →
          k ∈ (external_classes_collected diff).map Prod.fst) := by
  constructor
  · intro h
    unfold sync_resources at h
    split at h
    · cases h
    · rename_i acc hcol
      split at h
      · cases h
      · have hops : ops = acc.classes.map (fun p => RemoteOp.declare p.1 p.2.class_id)
            ++ acc.calls.map RemoteOp.invoke := by
          cases h
          rfl
        refine ⟨acc, hcol, hops, ?_⟩
        intro sel r hmem hskip cl cs hcc hcl
        refine ⟨resource_calls_nonempty_classes hcc hcl, ?_⟩
        intro k hk
        unfold sync_resources_collect at hcol
        split at hcol
        · cases hcol
        · exact syncLoop_coverage cfg (diff.resources.map Prod.snd) _ acc r
            (List.mem_map_of_mem Prod.snd hmem) hskip cl cs hcc hcol k hk
  · intro h
    unfold sync_external_contracts at h
    dsimp only at h
    split at h
    · cases h
    · have hops : ops = (external_classes_collected diff).map
            (fun p => RemoteOp.declare p.1 p.2.class_id)
          ++ (external_deploy_calls diff).map RemoteOp.invoke := by
        cases h
        rfl
      refine ⟨hops, ?_⟩
      intro q hq k lc hecc
      have hmem : (k, lc) ∈ (diff.external_contract_classes.map Prod.snd).filterMap
          external_contract_classes :=
        List.mem_filterMap.mpr ⟨q.2, List.mem_map_of_mem Prod.snd hq, hecc⟩
      have heq : external_classes_collected diff =
          extendClasses []
            ((diff.external_contract_classes.map Prod.snd).filterMap external_contract_classes) :=
        rfl
      rw [heq]
      exact keys_extendClasses_right _ [] k (List.mem_map_of_mem Prod.fst hmem)

/-- Witness for C1 at the sample diff with one namespace and one contract. -/
theorem publication_before_reference_witness :
    ∃ acc, sync_resources_collect sampleDiff sampleCfg = Except.ok acc ∧
      ([RemoteOp.declare 11 12,
        RemoteOp.invoke (Call.registerNamespace "ns"),
        RemoteOp.invoke (Call.registerContract 100 "ns" 10)] : List RemoteOp)
        = acc.classes.map (fun p => RemoteOp.declare p.1 p.2.class_id)
          ++ acc.calls.map RemoteOp.invoke ∧
      (∀ sel r, (sel, r) ∈ sampleDiff.resources → sampleCfg.is_skipped r.tag = false →
        ∀ cl cs, resource_calls_classes r = Except.ok (cl, cs) → cl ≠ [] →
          cs ≠ [] ∧ ∀ k ∈ cs.map Prod.fst, k ∈ acc.classes.map Prod.fst) :=
  (publication_before_reference sampleDiff sampleCfg 0 (fun _ => DeclareOutcome.ok) true
    [RemoteOp.declare 11 12,
     RemoteOp.invoke (Call.registerNamespace "ns"),
     RemoteOp.invoke (Call.registerContract 100 "ns" 10)]).1 (by rfl)

/-- C2: in the call sequence collected by sync_resources, the register call of
a Created namespace comes strictly before every register or upgrade call of
any non-skipped resource: the namespace calls form the prefix of the invoker
and every per-resource call lands in the suffix after them. -/
theorem namespace_registered_before_resources (diff : WorldDiff) (cfg : ProfileConfig)
    (acc : SyncAcc) (s : Felt) (nm : String) (sel : Felt) (r : ResourceDiff)
    (cl : List Call) (cs : Classes) (c : Call)
    (hok : sync_resources_collect diff cfg = Except.ok acc)
    (hs : s ∈ diff.namespaces)
    (hres : alookup diff.resources s =
      some (ResourceDiff.Created (ResourceLocal.Namespace nm)))
    (hmem : (sel, r) ∈ diff.resources)
    (hnsOf : r.namespace_of = nm)
    (hskip : cfg.is_skipped r.tag = false)
    (hcc : resource_calls_classes r = Except.ok (cl, cs))
    (hc : c ∈ cl) :
    ∃ nsCalls rest, namespaces_getcalls diff = Except.ok nsCalls ∧
      acc.calls = nsCalls ++ rest ∧ Call.registerNamespace nm ∈ nsCalls ∧ c ∈ rest := by
  unfold sync_resources_collect at hok
  cases hng : namespaces_getcalls diff with
  | error e => rw [hng] at hok; cases hok
  | ok nsCalls =>
    rw [hng] at hok
    obtain ⟨added, hadd, hcadd⟩ := syncLoop_call_mem cfg (diff.resources.map Prod.snd)
      { calls := nsCalls, classes := [], n := 0 } acc r c
      (List.mem_map_of_mem Prod.snd hmem) hskip cl cs hcc hc hok
    exact ⟨nsCalls, added, rfl, hadd, namespaces_getcalls_mem hng hs hres, hcadd⟩

/-- Witness for C2 at the sample diff. -/
theorem namespace_registered_before_resources_witness :
    ∃ nsCalls rest,
      namespaces_getcalls sampleDiff = Except.ok nsCalls ∧
      (SyncAcc.mk [Call.registerNamespace "ns", Call.registerContract 100 "ns" 10]
        [(11, { label := "ns-c1", casm_class_hash := 11, class_id := 12 })] 1).calls
        = nsCalls ++ rest ∧
      Call.registerNamespace "ns" ∈ nsCalls ∧
      Call.registerContract 100 "ns" 10 ∈ rest :=
  namespace_registered_before_resources sampleDiff sampleCfg
    (SyncAcc.mk [Call.registerNamespace "ns", Call.registerContract 100 "ns" 10]
      [(11, { label := "ns-c1", casm_class_hash := 11, class_id := 12 })] 1)
    7 "ns" 100 sampleContractDiff
    [Call.registerContract 100 "ns" 10]
    [(11, { label := "ns-c1", casm_class_hash := 11, class_id := 12 })]
    (Call.registerContract 100 "ns" 10)
    (by rfl) (by decide) (by decide) (by decide) (by rfl) (by rfl) (by rfl)
    (by decide)

/-- C3: an Updated diff entry of Library kind (well-kinded, so its remote half
is a library too) makes the resource synchronizer fail with the fatal internal
error; it never returns calls or classes for it. -/
theorem library_update_is_fatal (l : ResourceLocal) (remote : ResourceRemote)
    (htype : (ResourceDiff.Updated l remote).resource_type = ResourceType.Library)
    (hwk : (ResourceDiff.Updated l remote).wellKinded = true) :
    resource_calls_classes (ResourceDiff.Updated l remote) =
      Except.error (MigrationError.Panic ("libraries cannot be updated!")) := by
  cases l <;>
    simp only [ResourceDiff.resource_type, ResourceDiff.localOf,
      ResourceLocal.resource_type] at htype
  case Library ll =>
    cases remote <;>
      simp_all [ResourceDiff.wellKinded, ResourceLocal.resource_type,
        ResourceRemote.resource_type, resource_calls_classes, ResourceDiff.resource_type,
        ResourceDiff.localOf, libraries_calls_classes]
  all_goals cases htype

/-- Witness for C3 at a concrete updated library. -/
theorem library_update_is_fatal_witness :
    resource_calls_classes (ResourceDiff.Updated
      (ResourceLocal.Library { common := sampleCommon, version := "0_1_0" })
      ResourceRemote.Library) =
      Except.error (MigrationError.Panic ("libraries cannot be updated!")) :=
  library_update_is_fatal
    (ResourceLocal.Library { common := sampleCommon, version := "0_1_0" })
    ResourceRemote.Library (by rfl) (by rfl)

/-- C10: namespaces_getcalls emits exactly one register-namespace call per
namespace identifier whose diff entry is Created, and none for Updated or
Synced namespaces: the output is the filter of the namespace set by the
Created state, in order. -/
theorem namespaces_register_iff_created (diff : WorldDiff) (ns : List Call)
    (hok : namespaces_getcalls diff = Except.ok ns) :
    ns = diff.namespaces.filterMap (fun s =>
      match alookup diff.resources s with
      | some (ResourceDiff.Created (ResourceLocal.Namespace name)) =>
          some (Call.registerNamespace name)
      | _ => none) :=
  namespaces_getcalls_aux_eq diff.resources diff.namespaces ns hok

/-- Witness for C10 at a diff with Created, Updated and Synced namespaces. -/
theorem namespaces_register_iff_created_witness :
    ([Call.registerNamespace "a"] : List Call) =
      sampleNsDiff.namespaces.filterMap (fun s =>
        match alookup sampleNsDiff.resources s with
        | some (ResourceDiff.Created (ResourceLocal.Namespace name)) =>
            some (Call.registerNamespace name)
        | _ => none) :=
  namespaces_register_iff_created sampleNsDiff [Call.registerNamespace "a"] (by rfl)

/-! ## Helper lemmas on the permission loop -/

theorem permLoop_acc (diff : WorldDiff) (cfg : ProfileConfig) :
    ∀ (l : List (Felt × ResourceDiff)) (inv : List Call),
      permLoop diff cfg l inv = inv ++ permLoop diff cfg l [] := by
  intro l
  induction l with
  | nil => intro inv; simp [permLoop]
  | cons p rest ih =>
    intro inv
    by_cases hsk : cfg.is_skipped p.2.tag
    · simp [permLoop, hsk, ih inv]
    · simp only [permLoop, hsk, Bool.false_eq_true, if_false, if_neg]
      rw [ih (inv ++ permBlock diff p), ih ([] ++ permBlock diff p)]
      simp

theorem permBlock_filter_self (diff : WorldDiff) (sel : Felt) (r : ResourceDiff) :
    (permBlock diff (sel, r)).filter (isGrantFor sel) = permBlock diff (sel, r) := by
  refine List.filter_eq_self.mpr ?_
  intro c hc
  unfold permBlock at hc
  rcases List.mem_append.mp hc with h | h <;>
  · obtain ⟨g, _, he⟩ := List.mem_map.mp h
    rw [← he]
    simp [isGrantFor]

theorem permBlock_filter_other (diff : WorldDiff) (sel : Felt) (p : Felt × ResourceDiff)
    (hne : p.1 ≠ sel) : (permBlock diff p).filter (isGrantFor sel) = [] := by
  refine List.filter_eq_nil_iff.mpr ?_
  intro c hc
  unfold permBlock at hc
  rcases List.mem_append.mp hc with h | h <;>
  · obtain ⟨g, _, he⟩ := List.mem_map.mp h
    rw [← he]
    simp [isGrantFor, hne]

theorem permLoop_filter_none (diff : WorldDiff) (cfg : ProfileConfig) (sel : Felt) :
    ∀ (l : List (Felt × ResourceDiff)),
      (∀ p ∈ l, p.1 ≠ sel) →
      (permLoop diff cfg l []).filter (isGrantFor sel) = [] := by
  intro l
  induction l with
  | nil => intro _; simp [permLoop]
  | cons p rest ih =>
    intro hne
    by_cases hsk : cfg.is_skipped p.2.tag
    · simp only [permLoop, hsk, if_true]
      exact ih (fun q hq => hne q (List.mem_cons_of_mem p hq))
    · simp only [permLoop, hsk, Bool.false_eq_true, if_false, if_neg]
      rw [permLoop_acc diff cfg rest ([] ++ permBlock diff p)]
      rw [List.nil_append, List.filter_append]
      rw [permBlock_filter_other diff sel p (hne p (List.mem_cons_self p rest))]
      rw [List.nil_append]
      exact ih (fun q hq => hne q (List.mem_cons_of_mem p hq))

/-- C7: for every non-skipped resource of the diff, the permission step emits
exactly one writer grant per local-only writer delta followed by exactly one
owner grant per local-only owner delta (each carrying the grantee address and
the resource selector), and nothing for synced or remote-only deltas. -/
theorem permission_grants_local_only (diff : WorldDiff) (cfg : ProfileConfig)
    (sel : Felt) (r : ResourceDiff)
    (hmem : (sel, r) ∈ diff.resources)
    (hkeys : (diff.resources.map Prod.fst).Nodup)
    (hskip : cfg.is_skipped r.tag = false) :
    (sync_permissions_calls diff cfg).filter (isGrantFor sel) =
      (only_local (diff.writers sel)).map (fun g => Call.grantWriter sel g.address)
        ++ (only_local (diff.owners sel)).map (fun g => Call.grantOwner sel g.address) := by
  have main : ∀ (l : List (Felt × ResourceDiff)), (sel, r) ∈ l → (l.map Prod.fst).Nodup →
      (permLoop diff cfg l []).filter (isGrantFor sel) = permBlock diff (sel, r) := by
    intro l
    induction l with
    | nil => intro hm; cases hm
    | cons p rest ih =>
      intro hm hnd
      have hnd1 : p.1 ∉ rest.map Prod.fst ∧ (rest.map Prod.fst).Nodup := by
        rw [List.map_cons] at hnd
        exact List.nodup_cons.mp hnd
      have hnd2 : (rest.map Prod.fst).Nodup := hnd1.2
      rcases List.mem_cons.mp hm with heq | hmem2
      · have hp : p = (sel, r) := heq.symm
        subst hp
        simp only [permLoop, hskip, Bool.false_eq_true, if_false, if_neg]
        rw [permLoop_acc diff cfg rest ([] ++ permBlock diff (sel, r)), List.nil_append,
          List.filter_append, permBlock_filter_self]
        have hnone : ∀ q ∈ rest, q.1 ≠ sel := by
          intro q hq hqe
          apply hnd1.1
          have hqm : q.1 ∈ rest.map Prod.fst := List.mem_map_of_mem Prod.fst hq
          rwa [hqe] at hqm
        rw [permLoop_filter_none diff cfg sel rest hnone, List.append_nil]
      · have hpne : p.1 ≠ sel := by
          intro hpe
          apply hnd1.1
          have hqm : (sel, r).1 ∈ rest.map Prod.fst := List.mem_map_of_mem Prod.fst hmem2
          rwa [← hpe] at hqm
        by_cases hsk : cfg.is_skipped p.2.tag
        · simp only [permLoop, hsk, if_true]
          exact ih hmem2 hnd2
        · simp only [permLoop, hsk, Bool.false_eq_true, if_false, if_neg]
          rw [permLoop_acc diff cfg rest ([] ++ permBlock diff p), List.nil_append,
            List.filter_append, permBlock_filter_other diff sel p hpne, List.nil_append]
          exact ih hmem2 hnd2
  exact main diff.resources hmem hkeys

/-- Witness for C7 at the sample permission diff. -/
theorem permission_grants_local_only_witness :
    (sync_permissions_calls samplePermDiff sampleCfg).filter (isGrantFor 100) =
      (only_local (samplePermDiff.writers 100)).map (fun g => Call.grantWriter 100 g.address)
        ++ (only_local (samplePermDiff.owners 100)).map (fun g => Call.grantOwner 100 g.address) :=
  permission_grants_local_only samplePermDiff sampleCfg 100 sampleContractDiff
    (by decide) (by decide) (by rfl)

/-! ## Helper lemmas for C8 -/

/-- C8 counterexample: the claim fails as stated.  The namespace resource with
tag ns is on the skip list, yet sync_resources still emits its
register-namespace call, because namespaces_getcalls runs before the
skip-filtered per-resource loop and performs no skip check itself. -/
theorem skip_list_namespace_counterexample :
    skipNsCfg.is_skipped (ResourceDiff.Created (ResourceLocal.Namespace "ns")).tag = true ∧
    sync_resources_collect skipNsDiff skipNsCfg =
      Except.ok { calls := [Call.registerNamespace "ns"], classes := [], n := 0 } := by
  exact ⟨by rfl, by rfl⟩

/-- C8 (amended): a skip-listed resource contributes nothing to the
per-resource loops: the resource-sync loop, the permission loop and the init
loop are unchanged when the skip-listed entries are removed from their input
(so no calls, artifacts, grants or init calls are emitted for such a
resource there); only the namespace registration step ignores the skip list. -/
theorem skip_list_excludes_resource_loops (diff : WorldDiff) (cfg : ProfileConfig)
    (decode : String → Option (List Felt)) (l : List ResourceDiff)
    (entries : List (Felt × ResourceDiff)) (acc : SyncAcc)
    (inv0 invoker : List Call) (m : List (Nat × Call)) :
    syncLoop cfg l acc = syncLoop cfg (l.filter (fun r => !cfg.is_skipped r.tag)) acc
    ∧ permLoop diff cfg entries inv0 =
        permLoop diff cfg (entries.filter (fun p => !cfg.is_skipped p.2.tag)) inv0
    ∧ initLoop cfg decode entries invoker m =
        initLoop cfg decode (entries.filter (fun p => !cfg.is_skipped p.2.tag)) invoker m := by
  refine ⟨?_, ?_, ?_⟩
  · induction l generalizing acc with
    | nil => rfl
    | cons r rest ih =>
      by_cases hsk : cfg.is_skipped r.tag
      · have hstep : syncStep cfg acc r = Except.ok acc := by
          unfold syncStep
          simp [hsk]
        simp only [syncLoop, hstep, List.filter_cons, hsk, Bool.not_true,
          Bool.false_eq_true, if_false, if_neg]
        exact ih acc
      · simp only [List.filter_cons, Bool.not_eq_true', hsk, Bool.not_false, if_true,
          syncLoop]
        cases hstep : syncStep cfg acc r with
        | error e => rfl
        | ok acc2 => exact ih acc2
  · induction entries generalizing inv0 with
    | nil => rfl
    | cons p rest ih =>
      by_cases hsk : cfg.is_skipped p.2.tag
      · simp only [permLoop, hsk, if_true, List.filter_cons, Bool.not_true,
          Bool.false_eq_true, if_false, if_neg]
        exact ih inv0
      · simp only [permLoop, hsk, Bool.false_eq_true, if_false, if_neg, List.filter_cons,
          Bool.not_false, if_true]
        exact ih (inv0 ++ permBlock diff p)
  · induction entries generalizing invoker m with
    | nil => rfl
    | cons p rest ih =>
      by_cases hsk : cfg.is_skipped p.2.tag
      · have hstep : initStep cfg decode p invoker m = Except.ok (invoker, m) := by
          unfold initStep
          by_cases hty : p.2.resource_type = ResourceType.Contract <;> simp [hty, hsk]
        simp only [initLoop, hstep, List.filter_cons, hsk, Bool.not_true,
          Bool.false_eq_true, if_false, if_neg]
        exact ih invoker m
      · simp only [List.filter_cons, hsk, Bool.not_false, if_true, initLoop]
        cases hstep : initStep cfg decode p invoker m with
        | error e => rfl
        | ok st => exact ih st.1 st.2

/-! ## Helper lemmas on class declaration -/

theorem declare_all_ok (outcome : Felt → DeclareOutcome) :
    ∀ (l : List LabeledClass),
      (∀ c ∈ l, swallowableOutcome (outcome c.casm_class_hash) = true) →
      declare_all outcome l = Except.ok () := by
  intro l
  induction l with
  | nil => intro _; rfl
  | cons c rest ih =>
    intro hall
    have hc := hall c (List.mem_cons_self c rest)
    have hrest := fun d hd => hall d (List.mem_cons_of_mem c hd)
    unfold declare_all
    cases ho : outcome c.casm_class_hash with
    | ok => exact ih hrest
    | alreadyDeclared => exact ih hrest
    | failed msg =>
      rw [ho] at hc
      simp only [swallowableOutcome] at hc
      simp only [hc, if_true]
      exact ih hrest

theorem declare_all_err (outcome : Felt → DeclareOutcome) :
    ∀ (l : List LabeledClass),
      (∃ c ∈ l, swallowableOutcome (outcome c.casm_class_hash) = false) →
      ∃ m, declare_all outcome l = Except.error m ∧
        strContains m ("Class already declared") = false := by
  intro l
  induction l with
  | nil => intro ⟨c, hc, _⟩; cases hc
  | cons c rest ih =>
    intro ⟨d, hd, hbad⟩
    unfold declare_all
    cases ho : outcome c.casm_class_hash with
    | ok =>
      rcases List.mem_cons.mp hd with heq | hmem
      · rw [heq, ho] at hbad; simp [swallowableOutcome] at hbad
      · exact ih ⟨d, hmem, hbad⟩
    | alreadyDeclared =>
      rcases List.mem_cons.mp hd with heq | hmem
      · rw [heq, ho] at hbad; simp [swallowableOutcome] at hbad
      · exact ih ⟨d, hmem, hbad⟩
    | failed msg =>
      by_cases hcon : strContains msg ("Class already declared") = true
      · simp only [hcon, if_true]
        rcases List.mem_cons.mp hd with heq | hmem
        · rw [heq, ho] at hbad
          simp only [swallowableOutcome] at hbad
          rw [hbad] at hcon
          cases hcon
        · exact ih ⟨d, hmem, hbad⟩
      · refine ⟨msg, ?_, by simpa using hcon⟩
        simp only [Bool.not_eq_true] at hcon
        simp [hcon]

theorem shardFrom_subset (n j : Nat) :
    ∀ (l : List LabeledClass) (i : Nat) (c : LabeledClass),
      c ∈ shardFrom n j i l → c ∈ l := by
  intro l
  induction l with
  | nil => intro i c hc; cases hc
  | cons hd rest ih =>
    intro i c hc
    unfold shardFrom at hc
    by_cases hm : i % n = j
    · rw [if_pos hm] at hc
      rcases List.mem_cons.mp hc with heq | hmem
      · exact heq ▸ List.mem_cons_self hd rest
      · exact List.mem_cons_of_mem hd (ih (i + 1) c hmem)
    · rw [if_neg hm] at hc
      exact List.mem_cons_of_mem hd (ih (i + 1) c hc)

theorem shardFrom_cover (n : Nat) (hn : n ≠ 0) :
    ∀ (l : List LabeledClass) (i : Nat) (c : LabeledClass),
      c ∈ l → ∃ j, j < n ∧ c ∈ shardFrom n j i l := by
  intro l
  induction l with
  | nil => intro i c hc; cases hc
  | cons hd rest ih =>
    intro i c hc
    rcases List.mem_cons.mp hc with heq | hmem
    · refine ⟨i % n, Nat.mod_lt i (Nat.pos_of_ne_zero hn), ?_⟩
      unfold shardFrom
      rw [if_pos rfl]
      exact heq ▸ List.mem_cons_self hd _
    · obtain ⟨j, hj, hcm⟩ := ih (i + 1) c hmem
      refine ⟨j, hj, ?_⟩
      unfold shardFrom
      by_cases hm : i % n = j
      · rw [if_pos hm]; exact List.mem_cons_of_mem hd hcm
      · rw [if_neg hm]; exact hcm

theorem collect_shards_ok :
    ∀ (l : List (Except String Unit)),
      (∀ x ∈ l, x = Except.ok ()) → collect_shards l = Except.ok () := by
  intro l
  induction l with
  | nil => intro _; rfl
  | cons x rest ih =>
    intro hall
    have hx := hall x (List.mem_cons_self x rest)
    subst hx
    exact ih (fun y hy => hall y (List.mem_cons_of_mem _ hy))

theorem collect_shards_err :
    ∀ (l : List (Except String Unit)),
      (∃ x ∈ l, ∃ m, x = Except.error m ∧ strContains m ("Class already declared") = false) →
      ∃ e, collect_shards l = Except.error e := by
  intro l
  induction l with
  | nil => intro ⟨x, hx, _⟩; cases hx
  | cons x rest ih =>
    intro ⟨y, hy, m, hym, hmc⟩
    cases x with
    | ok u =>
      cases u
      rcases List.mem_cons.mp hy with heq | hmem
      · rw [heq] at hym; cases hym
      · obtain ⟨e, he⟩ := ih ⟨y, hmem, m, hym, hmc⟩
        exact ⟨e, by simpa [collect_shards] using he⟩
    | error e =>
      by_cases hcon : strContains e ("Class already declared") = true
      · rcases List.mem_cons.mp hy with heq | hmem
        · rw [heq] at hym
          cases hym
          rw [hmc] at hcon
          cases hcon
        · obtain ⟨e2, he2⟩ := ih ⟨y, hmem, m, hym, hmc⟩
          refine ⟨e2, ?_⟩
          simpa [collect_shards, hcon] using he2
      · refine ⟨MigrationError.DeclareClassError e, ?_⟩
        simp only [Bool.not_eq_true] at hcon
        simp [collect_shards, hcon]

/-- C4: in every configuration, the artifact publication step succeeds whenever
every class outcome is a success, an already-declared pre-check, or a failure
whose message reports the class as already declared (duplicate publication is
never a hard error); and a class whose failure is of any other kind fails the
whole publish step. -/
theorem already_declared_swallowed (nAccounts : Nat) (outcome : Felt → DeclareOutcome)
    (classes : Classes) :
    ((∀ p ∈ classes, swallowableOutcome (outcome p.2.casm_class_hash) = true) →
      declare_classes nAccounts outcome classes = Except.ok ())
    ∧ (∀ p ∈ classes, swallowableOutcome (outcome p.2.casm_class_hash) = false →
        ∃ e, declare_classes nAccounts outcome classes = Except.error e) := by
  constructor
  · intro hall
    have hvals : ∀ c ∈ classes.map Prod.snd, swallowableOutcome (outcome c.casm_class_hash) = true := by
      intro c hc
      obtain ⟨p, hp, he⟩ := List.mem_map.mp hc
      exact he ▸ hall p hp
    unfold declare_classes
    by_cases hz : nAccounts = 0
    · rw [if_pos hz, declare_all_ok outcome _ hvals]
    · rw [if_neg hz]
      refine collect_shards_ok _ ?_
      intro x hx
      obtain ⟨j, _, he⟩ := List.mem_map.mp hx
      rw [← he]
      exact declare_all_ok outcome _
        (fun c hc => hvals c (shardFrom_subset nAccounts j (classes.map Prod.snd) 0 c hc))
  · intro p hp hbad
    have hval : p.2 ∈ classes.map Prod.snd := List.mem_map_of_mem Prod.snd hp
    unfold declare_classes
    by_cases hz : nAccounts = 0
    · rw [if_pos hz]
      obtain ⟨m, hm, _⟩ := declare_all_err outcome (classes.map Prod.snd) ⟨p.2, hval, hbad⟩
      rw [hm]
      exact ⟨MigrationError.DeclarerError m, rfl⟩
    · rw [if_neg hz]
      obtain ⟨j, hj, hcm⟩ := shardFrom_cover nAccounts hz (classes.map Prod.snd) 0 p.2 hval
      obtain ⟨m, hm, hmc⟩ := declare_all_err outcome
        (shardFrom nAccounts j 0 (classes.map Prod.snd)) ⟨p.2, hcm, hbad⟩
      refine collect_shards_err _ ⟨declare_all outcome (shardFrom nAccounts j 0 (classes.map Prod.snd)), ?_, m, hm, hmc⟩
      exact List.mem_map_of_mem _ (List.mem_range.mpr hj)

/-- Witness for C4: a failure reporting the class as already declared is
swallowed in the sharded configuration. -/
theorem already_declared_swallowed_witness :
    declare_classes 2 (fun _ => DeclareOutcome.failed ("xx Class already declared yy"))
      [(11, sampleLabeled)] = Except.ok () :=
  (already_declared_swallowed 2 (fun _ => DeclareOutcome.failed ("xx Class already declared yy"))
    [(11, sampleLabeled)]).1 (by decide)

/-! ## Helper lemmas on the initialization loop -/

theorem initDecision_fst (cfg : ProfileConfig) (r : ResourceDiff) :
    (initDecision cfg r).1 = initEligible r := by
  cases r with
  | Created l => cases l <;> rfl
  | Updated l remote => cases remote <;> rfl
  | Synced l remote => cases remote <;> rfl

theorem initStep_noop (cfg : ProfileConfig) (decode : String → Option (List Felt))
    (p : Felt × ResourceDiff) (inv : List Call) (m : List (Nat × Call))
    (h : p.2.resource_type ≠ ResourceType.Contract ∨ cfg.is_skipped p.2.tag = true ∨
      initEligible p.2 = false) :
    initStep cfg decode p inv m = Except.ok (inv, m) := by
  unfold initStep
  dsimp only
  by_cases hty : p.2.resource_type = ResourceType.Contract
  · rw [if_pos hty]
    by_cases hsk : cfg.is_skipped p.2.tag
    · rw [if_pos hsk]
    · rw [if_neg hsk]
      have helig : initEligible p.2 = false := by
        rcases h with h1 | h2 | h3
        · exact absurd hty h1
        · rw [h2] at hsk; exact absurd rfl hsk
        · exact h3
      rw [show (initDecision cfg p.2).1 = false from (initDecision_fst cfg p.2).trans helig]
      rfl
  · rw [if_neg hty]

theorem initStep_eligible (cfg : ProfileConfig) (decode : String → Option (List Felt))
    (p : Felt × ResourceDiff) (inv : List Call) (m : List (Nat × Call))
    (hty : p.2.resource_type = ResourceType.Contract)
    (hsk : cfg.is_skipped p.2.tag = false)
    (helig : initEligible p.2 = true) :
    initStep cfg decode p inv m =
      match initArgsOf decode (initDecision cfg p.2).2 with
      | .error e => Except.error e
      | .ok args =>
        match listPosition (orderedInitTags cfg) p.2.tag with
        | some i => Except.ok (inv, ainsert m i (Call.initContract p.1 args))
        | none => Except.ok (inv ++ [Call.initContract p.1 args], m) := by
  unfold initStep
  dsimp only
  rw [if_pos hty, if_neg (by rw [hsk]; exact Bool.false_ne_true)]
  rw [show (initDecision cfg p.2).1 = true from (initDecision_fst cfg p.2).trans helig]
  rfl

theorem initStep_cases (cfg : ProfileConfig) (decode : String → Option (List Felt))
    (p : Felt × ResourceDiff) (inv : List Call) (m : List (Nat × Call))
    (st : List Call × List (Nat × Call))
    (h : initStep cfg decode p inv m = Except.ok st) :
    st = (inv, m) ∨
    (∃ args i, listPosition (orderedInitTags cfg) p.2.tag = some i ∧
      st = (inv, ainsert m i (Call.initContract p.1 args))) ∨
    (∃ args, listPosition (orderedInitTags cfg) p.2.tag = none ∧
      st = (inv ++ [Call.initContract p.1 args], m)) := by
  unfold initStep at h
  dsimp only at h
  split at h
  · split at h
    · left; cases h; rfl
    · split at h
      · split at h
        · cases h
        · rename_i args hargs
          split at h
          · rename_i i hpos
            refine Or.inr (Or.inl ⟨args, i, hpos, ?_⟩)
            cases h; rfl
          · rename_i hpos
            refine Or.inr (Or.inr ⟨args, hpos, ?_⟩)
            cases h; rfl
      · left; cases h; rfl
  · left; cases h; rfl

theorem initLoop_append (cfg : ProfileConfig) (decode : String → Option (List Felt)) :
    ∀ (a b : List (Felt × ResourceDiff)) (inv : List Call) (m : List (Nat × Call)),
      initLoop cfg decode (a ++ b) inv m =
        match initLoop cfg decode a inv m with
        | .error e => Except.error e
        | .ok st => initLoop cfg decode b st.1 st.2 := by
  intro a
  induction a with
  | nil => intro b inv m; rfl
  | cons p rest ih =>
    intro b inv m
    rw [List.cons_append]
    simp only [initLoop]
    cases hs : initStep cfg decode p inv m with
    | error e => rfl
    | ok st => exact ih b st.1 st.2

theorem ainsert_keys_nodup {κ ν : Type} [DecidableEq κ] (m : List (κ × ν)) (k : κ) (v : ν)
    (h : (m.map Prod.fst).Nodup) : ((ainsert m k v).map Prod.fst).Nodup := by
  rw [ainsert_map_fst]
  split
  · exact h
  · rename_i hk
    refine List.Nodup.append h (List.nodup_singleton k) ?_
    intro a ha hb
    simp at hb
    subst hb
    exact hk ha

theorem initLoop_keys_nodup (cfg : ProfileConfig) (decode : String → Option (List Felt)) :
    ∀ (l : List (Felt × ResourceDiff)) (inv : List Call) (m : List (Nat × Call))
      (inv' : List Call) (m' : List (Nat × Call)),
      (m.map Prod.fst).Nodup →
      initLoop cfg decode l inv m = Except.ok (inv', m') →
      (m'.map Prod.fst).Nodup := by
  intro l
  induction l with
  | nil =>
    intro inv m inv' m' hnd h
    cases h
    exact hnd
  | cons p rest ih =>
    intro inv m inv' m' hnd h
    simp only [initLoop] at h
    cases hs : initStep cfg decode p inv m with
    | error e => rw [hs] at h; cases h
    | ok st =>
      rw [hs] at h
      have hst : (st.2.map Prod.fst).Nodup := by
        rcases initStep_cases cfg decode p inv m st hs with heq | ⟨args, i, _, heq⟩ | ⟨args, _, heq⟩
        · rw [heq]; exact hnd
        · rw [heq]; exact ainsert_keys_nodup m _ _ hnd
        · rw [heq]; exact hnd
      exact ih st.1 st.2 inv' m' hst h

theorem countInitMap_ainsert_nonsel (sel : Felt) (m : List (Nat × Call)) (k : Nat) (v : Call)
    (hv : isInitCallFor sel v = false)
    (hat : ∀ q ∈ m, q.1 = k → isInitCallFor sel q.2 = false) :
    countInitMap sel (ainsert m k v) = countInitMap sel m := by
  unfold ainsert countInitMap
  by_cases hk : k ∈ m.map Prod.fst
  · rw [if_pos hk, List.countP_map]
    refine List.countP_congr ?_
    intro q hq
    have hcore : isInitCallFor sel (if q.1 = k then (k, v) else q).2 = isInitCallFor sel q.2 := by
      by_cases hqk : q.1 = k
      · rw [if_pos hqk]
        show isInitCallFor sel v = isInitCallFor sel q.2
        rw [hv, hat q hq hqk]
      · rw [if_neg hqk]
    show isInitCallFor sel (if q.1 = k then (k, v) else q).2 = true ↔
      isInitCallFor sel q.2 = true
    rw [hcore]
  · rw [if_neg hk, List.countP_append]
    simp [List.countP_cons, hv]

theorem countInitMap_ainsert_new (sel : Felt) (m : List (Nat × Call)) (k : Nat) (v : Call)
    (hv : isInitCallFor sel v = true) (hk : k ∉ m.map Prod.fst) :
    countInitMap sel (ainsert m k v) = countInitMap sel m + 1 := by
  unfold ainsert countInitMap
  rw [if_neg hk, List.countP_append]
  simp [List.countP_cons, hv]

theorem listPosition_get (l : List String) :
    ∀ (x : String) (i : Nat), listPosition l x = some i → l.get? i = some x := by
  induction l with
  | nil => intro x i h; cases h
  | cons y ys ih =>
    intro x i h
    unfold listPosition at h
    by_cases hxy : y = x
    · rw [if_pos hxy] at h
      cases h
      simp [hxy]
    · rw [if_neg hxy] at h
      cases hp : listPosition ys x with
      | none => rw [hp] at h; cases h
      | some i0 =>
        rw [hp] at h
        cases h
        simpa using ih x i0 hp

theorem listPosition_inj {l : List String} {x y : String} {i : Nat}
    (hx : listPosition l x = some i) (hy : listPosition l y = some i) : x = y := by
  have h1 := listPosition_get l x i hx
  have h2 := listPosition_get l y i hy
  rw [h1] at h2
  cases h2
  rfl

theorem isInitCallFor_of_ne {sel s : Felt} (h : s ≠ sel) (args : List Felt) :
    isInitCallFor sel (Call.initContract s args) = false := by
  simp [isInitCallFor, h]

theorem initLoop_neutral (cfg : ProfileConfig) (decode : String → Option (List Felt))
    (sel : Felt) (rtag : String) :
    ∀ (l : List (Felt × ResourceDiff)) (inv : List Call) (m : List (Nat × Call))
      (inv' : List Call) (m' : List (Nat × Call)),
      (∀ p ∈ l, p.1 ≠ sel) →
      (∀ p ∈ l, p.2.tag ≠ rtag) →
      (∀ q ∈ m, isInitCallFor sel q.2 = true →
        listPosition (orderedInitTags cfg) rtag = some q.1) →
      initLoop cfg decode l inv m = Except.ok (inv', m') →
      (countInitCalls sel inv' + countInitMap sel m' =
        countInitCalls sel inv + countInitMap sel m) ∧
      (∀ q ∈ m', isInitCallFor sel q.2 = true →
        listPosition (orderedInitTags cfg) rtag = some q.1) := by
  intro l
  induction l with
  | nil =>
    intro inv m inv' m' _ _ hinvar h
    cases h
    exact ⟨rfl, hinvar⟩
  | cons p rest ih =>
    intro inv m inv' m' hsel htag hinvar h
    have hpsel : p.1 ≠ sel := hsel p (List.mem_cons_self p rest)
    have hptag : p.2.tag ≠ rtag := htag p (List.mem_cons_self p rest)
    have hselr := fun q hq => hsel q (List.mem_cons_of_mem p hq)
    have htagr := fun q hq => htag q (List.mem_cons_of_mem p hq)
    simp only [initLoop] at h
    cases hs : initStep cfg decode p inv m with
    | error e => rw [hs] at h; cases h
    | ok st =>
      rw [hs] at h
      have hstate : (countInitCalls sel st.1 + countInitMap sel st.2 =
          countInitCalls sel inv + countInitMap sel m) ∧
          (∀ q ∈ st.2, isInitCallFor sel q.2 = true →
            listPosition (orderedInitTags cfg) rtag = some q.1) := by
        rcases initStep_cases cfg decode p inv m st hs with heq | ⟨args, i, hpos, heq⟩ |
          ⟨args, hpos, heq⟩
        · rw [heq]; exact ⟨rfl, hinvar⟩
        · rw [heq]
          constructor
          · show countInitCalls sel inv + countInitMap sel (ainsert m i _) = _
            rw [countInitMap_ainsert_nonsel sel m i _ (isInitCallFor_of_ne hpsel args) ?_]
            intro q hq hqk
            by_cases hqs : isInitCallFor sel q.2 = true
            · exfalso
              have hqp := hinvar q hq hqs
              rw [hqk] at hqp
              exact hptag (listPosition_inj hpos hqp)
            · simpa using hqs
          · intro q hq hqs
            rcases mem_ainsert hq with heq2 | hmem
            · exfalso
              rw [heq2] at hqs
              rw [isInitCallFor_of_ne hpsel args] at hqs
              cases hqs
            · exact hinvar q hmem hqs
        · rw [heq]
          constructor
          · show countInitCalls sel (inv ++ [_]) + countInitMap sel m = _
            unfold countInitCalls
            rw [List.countP_append]
            simp [List.countP_cons, isInitCallFor_of_ne hpsel args]
          · exact hinvar
      obtain ⟨hrec, hinv2⟩ := ih st.1 st.2 inv' m' hselr htagr hstate.2 h
      exact ⟨hrec.trans hstate.1, hinv2⟩

theorem initLoop_free (cfg : ProfileConfig) (decode : String → Option (List Felt))
    (rtag : String) :
    ∀ (l : List (Felt × ResourceDiff)) (inv : List Call) (m : List (Nat × Call))
      (inv' : List Call) (m' : List (Nat × Call)),
      (∀ p ∈ l, p.2.tag ≠ rtag) →
      (∀ q ∈ m, listPosition (orderedInitTags cfg) rtag ≠ some q.1) →
      initLoop cfg decode l inv m = Except.ok (inv', m') →
      (∀ q ∈ m', listPosition (orderedInitTags cfg) rtag ≠ some q.1) := by
  intro l
  induction l with
  | nil =>
    intro inv m inv' m' _ hfree h
    cases h
    exact hfree
  | cons p rest ih =>
    intro inv m inv' m' htag hfree h
    have hptag : p.2.tag ≠ rtag := htag p (List.mem_cons_self p rest)
    have htagr := fun q hq => htag q (List.mem_cons_of_mem p hq)
    simp only [initLoop] at h
    cases hs : initStep cfg decode p inv m with
    | error e => rw [hs] at h; cases h
    | ok st =>
      rw [hs] at h
      have hst : ∀ q ∈ st.2, listPosition (orderedInitTags cfg) rtag ≠ some q.1 := by
        rcases initStep_cases cfg decode p inv m st hs with heq | ⟨args, i, hpos, heq⟩ |
          ⟨args, _, heq⟩
        · rw [heq]; exact hfree
        · rw [heq]
          intro q hq
          rcases mem_ainsert hq with heq2 | hmem
          · rw [heq2]
            intro hcon
            exact hptag (listPosition_inj hpos hcon)
          · exact hfree q hmem
        · rw [heq]; exact hfree
      exact ih st.1 st.2 inv' m' htagr hst h

theorem keys_filterMap_lookup (m : List (Nat × Call)) :
    (m.map Prod.fst).Nodup → (m.map Prod.fst).filterMap (alookup m) = m.map Prod.snd := by
  induction m with
  | nil => intro _; rfl
  | cons q m2 ih =>
    intro hnd
    have hnd1 : q.1 ∉ m2.map Prod.fst ∧ (m2.map Prod.fst).Nodup := by
      rw [List.map_cons] at hnd
      exact List.nodup_cons.mp hnd
    rw [List.map_cons, List.filterMap_cons]
    have hhead : alookup (q :: m2) q.1 = some q.2 := by
      rw [show alookup (q :: m2) q.1 = if q.1 = q.1 then some q.2 else alookup m2 q.1 from rfl,
        if_pos rfl]
    rw [hhead]
    have htail : (m2.map Prod.fst).filterMap (alookup (q :: m2)) =
        (m2.map Prod.fst).filterMap (alookup m2) := by
      refine List.filterMap_congr ?_
      intro k hk
      have hne : q.1 ≠ k := by
        intro hq
        exact hnd1.1 (hq ▸ hk)
      rw [show alookup (q :: m2) k = if q.1 = k then some q.2 else alookup m2 k from rfl,
        if_neg hne]
    rw [htail, ih hnd1.2, List.map_cons]

theorem readout_count (m : List (Nat × Call)) (hnd : (m.map Prod.fst).Nodup) (sel : Felt) :
    countInitCalls sel
      ((List.insertionSort (· ≤ ·) (m.map Prod.fst)).filterMap (alookup m)) =
      countInitMap sel m := by
  have hperm : (List.insertionSort (· ≤ ·) (m.map Prod.fst)).Perm (m.map Prod.fst) :=
    List.perm_insertionSort _ _
  have hperm2 := hperm.filterMap (alookup m)
  unfold countInitCalls
  rw [hperm2.countP_eq]
  rw [keys_filterMap_lookup m hnd]
  rw [List.countP_map]
  rfl

theorem isInitCallFor_self (sel : Felt) (args : List Felt) :
    isInitCallFor sel (Call.initContract sel args) = true := by
  simp [isInitCallFor]

theorem initialize_calls_count (diff : WorldDiff) (cfg : ProfileConfig)
    (decode : String → Option (List Felt)) (sel : Felt) (calls invoker : List Call)
    (m : List (Nat × Call))
    (hok : initialize_contracts_calls diff cfg decode = Except.ok calls)
    (hloop : initLoop cfg decode diff.resources [] [] = Except.ok (invoker, m))
    (hnd : (m.map Prod.fst).Nodup) :
    countInitCalls sel calls = countInitCalls sel invoker + countInitMap sel m := by
  unfold initialize_contracts_calls at hok
  split at hok
  · cases hok
  · rename_i invoker2 m2 hloop2
    rw [hloop] at hloop2
    injection hloop2 with hpair
    injection hpair with hinv hm2
    subst invoker2
    subst m2
    by_cases hm : m.isEmpty
    · rw [if_pos hm] at hok
      injection hok with hcalls
      have hme : m = [] := List.isEmpty_iff.mp hm
      rw [← hcalls, hme]
      rfl
    · rw [if_neg hm] at hok
      dsimp only at hok
      injection hok with hcalls
      rw [← hcalls]
      have hgoal : countInitCalls sel (invoker ++
          (List.insertionSort (· ≤ ·) (m.map Prod.fst)).filterMap (alookup m)) =
          countInitCalls sel invoker + countInitMap sel m := by
        unfold countInitCalls
        rw [List.countP_append]
        have hro := readout_count m hnd sel
        unfold countInitCalls at hro
        rw [hro]
      exact hgoal

/-- C5: for every non-skipped Contract resource of the diff (with the selector
and tag unique to it, as a diff keyed by selector guarantees), the init step
emits exactly one init call for it when it is Created, or Updated or Synced
with the remote observation not yet initialized, and zero init calls when the
remote observation is already initialized. -/
theorem init_eligibility_count (diff : WorldDiff) (cfg : ProfileConfig)
    (decode : String → Option (List Felt)) (sel : Felt) (r : ResourceDiff) (calls : List Call)
    (hok : initialize_contracts_calls diff cfg decode = Except.ok calls)
    (hmem : (sel, r) ∈ diff.resources)
    (hkeys : (diff.resources.map Prod.fst).Nodup)
    (htag : ∀ p ∈ diff.resources, p.2.tag = r.tag → p = (sel, r))
    (hty : r.resource_type = ResourceType.Contract)
    (hskip : cfg.is_skipped r.tag = false) :
    countInitCalls sel calls = if initEligible r then 1 else 0 := by
  obtain ⟨l1, l2, hsplit⟩ := List.append_of_mem hmem
  have hkeys2 : (l1.map Prod.fst ++ sel :: l2.map Prod.fst).Nodup := by
    have hh := hsplit ▸ hkeys
    rwa [List.map_append, List.map_cons] at hh
  have hd := List.nodup_append.mp hkeys2
  have hsel_notl1 : sel ∉ l1.map Prod.fst := fun hin =>
    hd.2.2 hin (List.mem_cons_self sel (l2.map Prod.fst))
  have hsel_notl2 : sel ∉ l2.map Prod.fst := (List.nodup_cons.mp hd.2.1).1
  have hnotl1 : ∀ p ∈ l1, p.1 ≠ sel := by
    intro p hp hpe
    exact hsel_notl1 (hpe ▸ List.mem_map_of_mem Prod.fst hp)
  have hnotl2 : ∀ p ∈ l2, p.1 ≠ sel := by
    intro p hp hpe
    exact hsel_notl2 (hpe ▸ List.mem_map_of_mem Prod.fst hp)
  have htagl1 : ∀ p ∈ l1, p.2.tag ≠ r.tag := by
    intro p hp hpt
    have hpr := htag p (by rw [hsplit]; exact List.mem_append_left _ hp) hpt
    apply hsel_notl1
    have hin := List.mem_map_of_mem Prod.fst hp
    rw [hpr] at hin
    exact hin
  have htagl2 : ∀ p ∈ l2, p.2.tag ≠ r.tag := by
    intro p hp hpt
    have hpr := htag p
      (by rw [hsplit]; exact List.mem_append_right _ (List.mem_cons_of_mem _ hp)) hpt
    apply hsel_notl2
    have hin := List.mem_map_of_mem Prod.fst hp
    rw [hpr] at hin
    exact hin
  -- run the loop on the three segments
  have hloop0 : ∃ invoker mfin,
      initLoop cfg decode diff.resources [] [] = Except.ok (invoker, mfin) := by
    unfold initialize_contracts_calls at hok
    split at hok
    · cases hok
    · rename_i invoker2 m2 hloop2
      exact ⟨invoker2, m2, hloop2⟩
  obtain ⟨invoker, mfin, hloop⟩ := hloop0
  have hrun := hloop
  rw [hsplit, initLoop_append] at hrun
  cases h1 : initLoop cfg decode l1 [] [] with
  | error e => rw [h1] at hrun; cases hrun
  | ok st1 =>
    rw [h1] at hrun
    have hn1 := initLoop_neutral cfg decode sel r.tag l1 [] [] st1.1 st1.2 hnotl1 htagl1
      (by intro q hq; cases hq) (by rw [← Prod.mk.eta (p := st1)] at h1; exact h1)
    have hfree1 := initLoop_free cfg decode r.tag l1 [] [] st1.1 st1.2 htagl1
      (by intro q hq; cases hq) (by rw [← Prod.mk.eta (p := st1)] at h1; exact h1)
    have hnd1 : (st1.2.map Prod.fst).Nodup := initLoop_keys_nodup cfg decode l1 [] []
      st1.1 st1.2 (by exact List.nodup_nil) (by rw [← Prod.mk.eta (p := st1)] at h1; exact h1)
    have hcount1 : countInitCalls sel st1.1 + countInitMap sel st1.2 = 0 := by
      have hc := hn1.1
      rw [show countInitCalls sel ([] : List Call) = 0 from rfl,
        show countInitMap sel ([] : List (Nat × Call)) = 0 from rfl] at hc
      simpa using hc
    simp only [initLoop] at hrun
    cases h2 : initStep cfg decode (sel, r) st1.1 st1.2 with
    | error e => rw [h2] at hrun; cases hrun
    | ok st2 =>
      rw [h2] at hrun
      -- the step at the resource r itself
      have hstep : (countInitCalls sel st2.1 + countInitMap sel st2.2 =
          (if initEligible r then 1 else 0)) ∧
          (∀ q ∈ st2.2, isInitCallFor sel q.2 = true →
            listPosition (orderedInitTags cfg) r.tag = some q.1) ∧
          (st2.2.map Prod.fst).Nodup := by
        by_cases helig : initEligible r = true
        · rw [initStep_eligible cfg decode (sel, r) st1.1 st1.2 hty hskip helig] at h2
          cases hargs : initArgsOf decode (initDecision cfg (sel, r).2).2 with
          | error e => rw [hargs] at h2; cases h2
          | ok args =>
            rw [hargs] at h2
            cases hpos : listPosition (orderedInitTags cfg) (sel, r).2.tag with
            | some i =>
              rw [hpos] at h2
              cases h2
              have hi_not : i ∉ st1.2.map Prod.fst := by
                intro hin
                obtain ⟨q, hq, hqe⟩ := List.mem_map.mp hin
                exact hfree1 q hq (hqe ▸ hpos)
              refine ⟨?_, ?_, ?_⟩
              · show countInitCalls sel st1.1 +
                  countInitMap sel (ainsert st1.2 i (Call.initContract sel args)) = _
                rw [countInitMap_ainsert_new sel st1.2 i _ (isInitCallFor_self sel args) hi_not]
                rw [helig, if_pos rfl]
                omega
              · intro q hq hqs
                rcases mem_ainsert hq with heq2 | hmem2
                · rw [heq2]
                · rw [← hpos]
                  exact hn1.2 q hmem2 hqs
              · exact ainsert_keys_nodup st1.2 i _ hnd1
            | none =>
              rw [hpos] at h2
              cases h2
              refine ⟨?_, ?_, ?_⟩
              · show countInitCalls sel (st1.1 ++ [Call.initContract sel args]) +
                  countInitMap sel st1.2 = _
                unfold countInitCalls
                rw [List.countP_append]
                rw [helig, if_pos rfl]
                have hone : List.countP (fun c => isInitCallFor sel c)
                    [Call.initContract sel args] = 1 := by
                  simp [List.countP_cons, isInitCallFor_self]
                unfold countInitCalls at hcount1
                omega
              · intro q hq hqs
                rw [← hpos]
                exact hn1.2 q hq hqs
              · exact hnd1
        · have helig2 : initEligible r = false := by simpa using helig
          rw [initStep_noop cfg decode (sel, r) st1.1 st1.2 (Or.inr (Or.inr helig2))] at h2
          cases h2
          refine ⟨?_, hn1.2, hnd1⟩
          rw [helig2]
          simpa using hcount1
      have hn2 := initLoop_neutral cfg decode sel r.tag l2 st2.1 st2.2 invoker mfin
        hnotl2 htagl2 hstep.2.1 hrun
      have hndfin : (mfin.map Prod.fst).Nodup := initLoop_keys_nodup cfg decode l2
        st2.1 st2.2 invoker mfin hstep.2.2 hrun
      have htotal : countInitCalls sel invoker + countInitMap sel mfin =
          (if initEligible r then 1 else 0) := hn2.1.trans hstep.1
      rw [initialize_calls_count diff cfg decode sel calls invoker mfin hok hloop hndfin]
      exact htotal

/-- Witness for C5 at the sample diff with one Created contract. -/
theorem init_eligibility_count_witness :
    countInitCalls 100 [Call.initContract 100 []] =
      if initEligible sampleContractDiff then 1 else 0 :=
  init_eligibility_count sampleDiff sampleCfg (fun _ => none) 100 sampleContractDiff
    [Call.initContract 100 []] (by rfl) (by decide) (by decide) (by decide) (by rfl) (by rfl)

/-! ## Helper lemmas for the init order list -/

theorem not_mem_key_segment {p q : Felt × ResourceDiff} {seg : List (Felt × ResourceDiff)}
    (hq : q.1 ∉ seg.map Prod.fst) (hp : p ∈ seg) : p ≠ q := by
  intro he
  subst he
  exact hq (List.mem_map_of_mem Prod.fst hp)

theorem initLoop_m_const (cfg : ProfileConfig) (decode : String → Option (List Felt)) :
    ∀ (l : List (Felt × ResourceDiff)) (inv : List Call) (m : List (Nat × Call))
      (inv' : List Call) (m' : List (Nat × Call)),
      (∀ p ∈ l, listPosition (orderedInitTags cfg) p.2.tag = none) →
      initLoop cfg decode l inv m = Except.ok (inv', m') → m' = m := by
  intro l
  induction l with
  | nil =>
    intro inv m inv' m' _ h
    cases h
    rfl
  | cons p rest ih =>
    intro inv m inv' m' hseg h
    simp only [initLoop] at h
    cases hs : initStep cfg decode p inv m with
    | error e => rw [hs] at h; cases h
    | ok st =>
      rw [hs] at h
      have hst : st.2 = m := by
        rcases initStep_cases cfg decode p inv m st hs with heq | ⟨args, i, hpos, heq⟩ |
          ⟨args, _, heq⟩
        · rw [heq]
        · rw [hseg p (List.mem_cons_self p rest)] at hpos
          cases hpos
        · rw [heq]
      have := ih st.1 st.2 inv' m' (fun q hq => hseg q (List.mem_cons_of_mem p hq)) h
      rw [this, hst]

theorem initialize_calls_eq (diff : WorldDiff) (cfg : ProfileConfig)
    (decode : String → Option (List Felt)) (calls invoker : List Call)
    (m : List (Nat × Call))
    (hok : initialize_contracts_calls diff cfg decode = Except.ok calls)
    (hloop : initLoop cfg decode diff.resources [] [] = Except.ok (invoker, m))
    (hne : m.isEmpty = false) :
    calls = invoker ++ (List.insertionSort (· ≤ ·) (m.map Prod.fst)).filterMap (alookup m) := by
  unfold initialize_contracts_calls at hok
  split at hok
  · cases hok
  · rename_i invoker2 m2 hloop2
    rw [hloop] at hloop2
    injection hloop2 with hpair
    injection hpair with hinv hm2
    subst invoker2
    subst m2
    rw [if_neg (by rw [hne]; exact Bool.false_ne_true)] at hok
    dsimp only at hok
    injection hok with hcalls
    exact hcalls.symm

theorem initLoop_seg_step (cfg : ProfileConfig) (decode : String → Option (List Felt))
    (seg : List (Felt × ResourceDiff)) (p : Felt × ResourceDiff)
    (rest : List (Felt × ResourceDiff)) (inv : List Call) (m : List (Nat × Call))
    (fin : List Call × List (Nat × Call))
    (hseg : ∀ q ∈ seg, listPosition (orderedInitTags cfg) q.2.tag = none)
    (hty : p.2.resource_type = ResourceType.Contract)
    (hsk : cfg.is_skipped p.2.tag = false)
    (helig : initEligible p.2 = true)
    (i : Nat) (hpos : listPosition (orderedInitTags cfg) p.2.tag = some i)
    (hrun : initLoop cfg decode (seg ++ p :: rest) inv m = Except.ok fin) :
    ∃ args inv2, initLoop cfg decode rest inv2
      (ainsert m i (Call.initContract p.1 args)) = Except.ok fin := by
  rw [initLoop_append] at hrun
  cases h1 : initLoop cfg decode seg inv m with
  | error e => rw [h1] at hrun; cases hrun
  | ok st1 =>
    rw [h1] at hrun
    have hm1 : st1.2 = m := initLoop_m_const cfg decode seg inv m st1.1 st1.2 hseg
      (by rw [← Prod.mk.eta (p := st1)] at h1; exact h1)
    simp only [initLoop] at hrun
    rw [initStep_eligible cfg decode p st1.1 st1.2 hty hsk helig] at hrun
    cases hargs : initArgsOf decode (initDecision cfg p.2).2 with
    | error e => rw [hargs] at hrun; cases hrun
    | ok args =>
      rw [hargs, hpos] at hrun
      refine ⟨args, st1.1, ?_⟩
      rw [← hm1]
      exact hrun

/-- C6: with configured order list [tB, tA] and two eligible, non-skipped
contracts B (tagged tB) and A (tagged tA) in the diff, the emitted init call
sequence ends with the ordered block [init B, init A]: the init call of B
strictly precedes that of A regardless of the scan order of the diff map. -/
theorem init_order_list_respected (diff : WorldDiff) (cfg : ProfileConfig)
    (decode : String → Option (List Felt)) (calls : List Call)
    (selA selB : Felt) (rA rB : ResourceDiff) (tA tB : String)
    (horder : orderedInitTags cfg = [tB, tA])
    (hok : initialize_contracts_calls diff cfg decode = Except.ok calls)
    (hkeys : (diff.resources.map Prod.fst).Nodup)
    (hmemB : (selB, rB) ∈ diff.resources) (hmemA : (selA, rA) ∈ diff.resources)
    (htagB : rB.tag = tB) (htagA : rA.tag = tA) (hne : tB ≠ tA)
    (huniqB : ∀ p ∈ diff.resources, p.2.tag = tB → p = (selB, rB))
    (huniqA : ∀ p ∈ diff.resources, p.2.tag = tA → p = (selA, rA))
    (htyB : rB.resource_type = ResourceType.Contract)
    (htyA : rA.resource_type = ResourceType.Contract)
    (heligB : initEligible rB = true) (heligA : initEligible rA = true)
    (hskipB : cfg.is_skipped tB = false) (hskipA : cfg.is_skipped tA = false) :
    ∃ pre argsB argsA, calls = pre ++
      [Call.initContract selB argsB, Call.initContract selA argsA] := by
  have hposB : listPosition (orderedInitTags cfg) rB.tag = some 0 := by
    rw [htagB, horder]
    simp [listPosition]
  have hposA : listPosition (orderedInitTags cfg) rA.tag = some 1 := by
    rw [htagA, horder]
    simp [listPosition, hne]
  have hposNone : ∀ t, t ≠ tB → t ≠ tA → listPosition (orderedInitTags cfg) t = none := by
    intro t h1 h2
    rw [horder]
    simp [listPosition, Ne.symm h1, Ne.symm h2]
  have hplat : ∀ p ∈ diff.resources, p ≠ (selB, rB) → p ≠ (selA, rA) →
      listPosition (orderedInitTags cfg) p.2.tag = none := by
    intro p hp hnB hnA
    by_cases hb : p.2.tag = tB
    · exact absurd (huniqB p hp hb) hnB
    by_cases ha : p.2.tag = tA
    · exact absurd (huniqA p hp ha) hnA
    exact hposNone p.2.tag hb ha
  have hABne : (selB, rB) ≠ (selA, rA) := by
    intro he
    injection he with h1 h2
    rw [h2] at htagB
    rw [htagA] at htagB
    exact hne htagB.symm
  have hloop0 : ∃ invoker mfin,
      initLoop cfg decode diff.resources [] [] = Except.ok (invoker, mfin) := by
    unfold initialize_contracts_calls at hok
    split at hok
    · cases hok
    · rename_i invoker2 m2 hloop2
      exact ⟨invoker2, m2, hloop2⟩
  obtain ⟨invoker, mfin, hloop⟩ := hloop0
  obtain ⟨u, v, hsplit⟩ := List.append_of_mem hmemB
  have hmemA2 : (selA, rA) ∈ u ∨ (selA, rA) ∈ v := by
    rw [hsplit] at hmemA
    rcases List.mem_append.mp hmemA with h | h
    · exact Or.inl h
    · rcases List.mem_cons.mp h with h2 | h2
      · exact absurd h2.symm hABne
      · exact Or.inr h2
  -- segment membership helpers derived from the key uniqueness of the diff map
  have hsegfact : ∀ (seg : List (Felt × ResourceDiff)),
      (∀ p ∈ seg, p ∈ diff.resources) →
      (∀ p ∈ seg, p ≠ (selB, rB)) → (∀ p ∈ seg, p ≠ (selA, rA)) →
      (∀ p ∈ seg, listPosition (orderedInitTags cfg) p.2.tag = none) := by
    intro seg hsub hnB hnA p hp
    exact hplat p (hsub p hp) (hnB p hp) (hnA p hp)
  rcases hmemA2 with hAu | hAv
  · -- A is scanned before B
    obtain ⟨u1, u2, husplit⟩ := List.append_of_mem hAu
    have hfull : diff.resources = u1 ++ (selA, rA) :: (u2 ++ (selB, rB) :: v) := by
      rw [hsplit, husplit, List.append_assoc, List.cons_append]
    -- key bookkeeping
    have hndfull : ((u1 ++ (selA, rA) :: (u2 ++ (selB, rB) :: v)).map Prod.fst).Nodup := by
      rw [← hfull]
      exact hkeys
    rw [List.map_append, List.map_cons, List.map_append, List.map_cons] at hndfull
    have hd1 := List.nodup_append.mp hndfull
    have hd2 := List.nodup_cons.mp hd1.2.1
    have hd3 := List.nodup_append.mp hd2.2
    have hd4 := List.nodup_cons.mp hd3.2.1
    have hselA_u1 : selA ∉ u1.map Prod.fst := by
      intro hin
      exact hd1.2.2 hin (List.mem_cons_self _ _)
    have hselB_u1 : selB ∉ u1.map Prod.fst := by
      intro hin
      exact hd1.2.2 hin (List.mem_cons_of_mem _
        (List.mem_append_right _ (List.mem_cons_self _ _)))
    have hselA_u2 : selA ∉ u2.map Prod.fst := fun hin =>
      hd2.1 (List.mem_append_left _ hin)
    have hselB_u2 : selB ∉ u2.map Prod.fst := fun hin =>
      hd3.2.2 hin (List.mem_cons_self _ _)
    have hselA_v : selA ∉ v.map Prod.fst := fun hin =>
      hd2.1 (List.mem_append_right _ (List.mem_cons_of_mem _ hin))
    have hselB_v : selB ∉ v.map Prod.fst := hd4.1
    have hsegu1 : ∀ p ∈ u1, listPosition (orderedInitTags cfg) p.2.tag = none := by
      refine hsegfact u1 ?_ ?_ ?_
      · intro p hp; rw [hfull]; exact List.mem_append_left _ hp
      · intro p hp; exact not_mem_key_segment hselB_u1 hp
      · intro p hp; exact not_mem_key_segment hselA_u1 hp
    have hsegu2 : ∀ p ∈ u2, listPosition (orderedInitTags cfg) p.2.tag = none := by
      refine hsegfact u2 ?_ ?_ ?_
      · intro p hp
        rw [hfull]
        exact List.mem_append_right _ (List.mem_cons_of_mem _ (List.mem_append_left _ hp))
      · intro p hp; exact not_mem_key_segment hselB_u2 hp
      · intro p hp; exact not_mem_key_segment hselA_u2 hp
    have hsegv : ∀ p ∈ v, listPosition (orderedInitTags cfg) p.2.tag = none := by
      refine hsegfact v ?_ ?_ ?_
      · intro p hp
        rw [hfull]
        exact List.mem_append_right _ (List.mem_cons_of_mem _
          (List.mem_append_right _ (List.mem_cons_of_mem _ hp)))
      · intro p hp; exact not_mem_key_segment hselB_v hp
      · intro p hp; exact not_mem_key_segment hselA_v hp
    have hrun := hloop
    rw [hfull] at hrun
    obtain ⟨argsA, inv2, hrun2⟩ := initLoop_seg_step cfg decode u1 (selA, rA)
      (u2 ++ (selB, rB) :: v) [] [] (invoker, mfin) hsegu1 htyA
      (by rw [show (selA, rA).2.tag = tA from htagA]; exact hskipA) heligA 1
      (by rw [show (selA, rA).2.tag = rA.tag from rfl]; exact hposA) hrun
    obtain ⟨argsB, inv3, hrun3⟩ := initLoop_seg_step cfg decode u2 (selB, rB)
      v inv2 (ainsert [] 1 (Call.initContract selA argsA)) (invoker, mfin) hsegu2 htyB
      (by rw [show (selB, rB).2.tag = tB from htagB]; exact hskipB) heligB 0
      (by rw [show (selB, rB).2.tag = rB.tag from rfl]; exact hposB) hrun2
    have hmfin : mfin = [(1, Call.initContract selA argsA), (0, Call.initContract selB argsB)] := by
      have hmv := initLoop_m_const cfg decode v inv3
        (ainsert (ainsert [] 1 (Call.initContract selA argsA)) 0 (Call.initContract selB argsB))
        invoker mfin hsegv hrun3
      rw [hmv]
      rfl
    have hcalls := initialize_calls_eq diff cfg decode calls invoker mfin hok hloop
      (by rw [hmfin]; rfl)
    refine ⟨invoker, argsB, argsA, ?_⟩
    rw [hcalls, hmfin]
    have hreadout : (List.insertionSort (· ≤ ·)
        ([(1, Call.initContract selA argsA), (0, Call.initContract selB argsB)].map Prod.fst)).filterMap
        (alookup [(1, Call.initContract selA argsA), (0, Call.initContract selB argsB)]) =
        [Call.initContract selB argsB, Call.initContract selA argsA] := by
      show (List.insertionSort (· ≤ ·) [1, 0]).filterMap
        (alookup [(1, Call.initContract selA argsA), (0, Call.initContract selB argsB)]) = _
      rw [show List.insertionSort (· ≤ ·) [1, 0] = [0, 1] from by decide]
      simp [alookup]
    rw [hreadout]
  · -- B is scanned before A
    obtain ⟨v1, v2, hvsplit⟩ := List.append_of_mem hAv
    have hfull : diff.resources = u ++ (selB, rB) :: (v1 ++ (selA, rA) :: v2) := by
      rw [hsplit, hvsplit]
    have hndfull : ((u ++ (selB, rB) :: (v1 ++ (selA, rA) :: v2)).map Prod.fst).Nodup := by
      rw [← hfull]
      exact hkeys
    rw [List.map_append, List.map_cons, List.map_append, List.map_cons] at hndfull
    have hd1 := List.nodup_append.mp hndfull
    have hd2 := List.nodup_cons.mp hd1.2.1
    have hd3 := List.nodup_append.mp hd2.2
    have hd4 := List.nodup_cons.mp hd3.2.1
    have hselB_u : selB ∉ u.map Prod.fst := by
      intro hin
      exact hd1.2.2 hin (List.mem_cons_self _ _)
    have hselA_u : selA ∉ u.map Prod.fst := by
      intro hin
      exact hd1.2.2 hin (List.mem_cons_of_mem _
        (List.mem_append_right _ (List.mem_cons_self _ _)))
    have hselA_v1 : selA ∉ v1.map Prod.fst := fun hin =>
      hd3.2.2 hin (List.mem_cons_self _ _)
    have hselB_v1 : selB ∉ v1.map Prod.fst := fun hin =>
      hd2.1 (List.mem_append_left _ hin)
    have hselA_v2 : selA ∉ v2.map Prod.fst := hd4.1
    have hselB_v2 : selB ∉ v2.map Prod.fst := fun hin =>
      hd2.1 (List.mem_append_right _ (List.mem_cons_of_mem _ hin))
    have hsegu : ∀ p ∈ u, listPosition (orderedInitTags cfg) p.2.tag = none := by
      refine hsegfact u ?_ ?_ ?_
      · intro p hp; rw [hfull]; exact List.mem_append_left _ hp
      · intro p hp; exact not_mem_key_segment hselB_u hp
      · intro p hp; exact not_mem_key_segment hselA_u hp
    have hsegv1 : ∀ p ∈ v1, listPosition (orderedInitTags cfg) p.2.tag = none := by
      refine hsegfact v1 ?_ ?_ ?_
      · intro p hp
        rw [hfull]
        exact List.mem_append_right _ (List.mem_cons_of_mem _ (List.mem_append_left _ hp))
      · intro p hp; exact not_mem_key_segment hselB_v1 hp
      · intro p hp; exact not_mem_key_segment hselA_v1 hp
    have hsegv2 : ∀ p ∈ v2, listPosition (orderedInitTags cfg) p.2.tag = none := by
      refine hsegfact v2 ?_ ?_ ?_
      · intro p hp
        rw [hfull]
        exact List.mem_append_right _ (List.mem_cons_of_mem _
          (List.mem_append_right _ (List.mem_cons_of_mem _ hp)))
      · intro p hp; exact not_mem_key_segment hselB_v2 hp
      · intro p hp; exact not_mem_key_segment hselA_v2 hp
    have hrun := hloop
    rw [hfull] at hrun
    obtain ⟨argsB, inv2, hrun2⟩ := initLoop_seg_step cfg decode u (selB, rB)
      (v1 ++ (selA, rA) :: v2) [] [] (invoker, mfin) hsegu htyB
      (by rw [show (selB, rB).2.tag = tB from htagB]; exact hskipB) heligB 0
      (by rw [show (selB, rB).2.tag = rB.tag from rfl]; exact hposB) hrun
    obtain ⟨argsA, inv3, hrun3⟩ := initLoop_seg_step cfg decode v1 (selA, rA)
      v2 inv2 (ainsert [] 0 (Call.initContract selB argsB)) (invoker, mfin) hsegv1 htyA
      (by rw [show (selA, rA).2.tag = tA from htagA]; exact hskipA) heligA 1
      (by rw [show (selA, rA).2.tag = rA.tag from rfl]; exact hposA) hrun2
    have hmfin : mfin = [(0, Call.initContract selB argsB), (1, Call.initContract selA argsA)] := by
      have hmv := initLoop_m_const cfg decode v2 inv3
        (ainsert (ainsert [] 0 (Call.initContract selB argsB)) 1 (Call.initContract selA argsA))
        invoker mfin hsegv2 hrun3
      rw [hmv]
      rfl
    have hcalls := initialize_calls_eq diff cfg decode calls invoker mfin hok hloop
      (by rw [hmfin]; rfl)
    refine ⟨invoker, argsB, argsA, ?_⟩
    rw [hcalls, hmfin]
    have hreadout : (List.insertionSort (· ≤ ·)
        ([(0, Call.initContract selB argsB), (1, Call.initContract selA argsA)].map Prod.fst)).filterMap
        (alookup [(0, Call.initContract selB argsB), (1, Call.initContract selA argsA)]) =
        [Call.initContract selB argsB, Call.initContract selA argsA] := by
      show (List.insertionSort (· ≤ ·) [0, 1]).filterMap
        (alookup [(0, Call.initContract selB argsB), (1, Call.initContract selA argsA)]) = _
      rw [show List.insertionSort (· ≤ ·) [0, 1] = [0, 1] from by decide]
      simp [alookup]
    rw [hreadout]

/-- Witness for C6: order list [o-b, o-a] with the diff scanning o-a first
still initializes o-b (selector 2) before o-a (selector 1). -/
theorem init_order_list_respected_witness :
    ∃ pre argsB argsA, ([Call.initContract 2 [], Call.initContract 1 []] : List Call) =
      pre ++ [Call.initContract 2 argsB, Call.initContract 1 argsA] :=
  init_order_list_respected sampleOrderDiff sampleOrderCfg (fun _ => none)
    [Call.initContract 2 [], Call.initContract 1 []] 1 2 orderContractA orderContractB
    "o-a" "o-b" (by rfl) (by rfl) (by decide) (by decide) (by decide) (by rfl) (by rfl)
    (by decide) (by decide) (by decide) (by rfl) (by rfl) (by rfl) (by rfl)
    (by rfl) (by rfl)

/-! ## Helper lemmas for the empty diff -/

theorem permLoop_empty (diff : WorldDiff) (cfg : ProfileConfig) :
    ∀ (l : List (Felt × ResourceDiff)) (inv : List Call),
      (∀ p ∈ l, only_local (diff.writers p.1) = [] ∧ only_local (diff.owners p.1) = []) →
      permLoop diff cfg l inv = inv := by
  intro l
  induction l with
  | nil => intro inv _; rfl
  | cons p rest ih =>
    intro inv hall
    have hp := hall p (List.mem_cons_self p rest)
    have hrest := fun q hq => hall q (List.mem_cons_of_mem p hq)
    by_cases hsk : cfg.is_skipped p.2.tag
    · simp only [permLoop, hsk, if_true]
      exact ih inv hrest
    · simp only [permLoop, hsk, Bool.false_eq_true, if_false, if_neg]
      have hblock : permBlock diff p = [] := by
        unfold permBlock
        rw [hp.1, hp.2]
        rfl
      rw [hblock, List.append_nil]
      exact ih inv hrest

theorem initLoop_empty (cfg : ProfileConfig) (decode : String → Option (List Felt)) :
    ∀ (l : List (Felt × ResourceDiff)) (inv : List Call) (m : List (Nat × Call)),
      (∀ p ∈ l, initEligible p.2 = false) →
      initLoop cfg decode l inv m = Except.ok (inv, m) := by
  intro l
  induction l with
  | nil => intro inv m _; rfl
  | cons p rest ih =>
    intro inv m hall
    simp only [initLoop]
    rw [initStep_noop cfg decode p inv m (Or.inr (Or.inr (hall p (List.mem_cons_self p rest))))]
    exact ih inv m (fun q hq => hall q (List.mem_cons_of_mem p hq))

theorem declare_classes_empty (nAccounts : Nat) (outcome : Felt → DeclareOutcome) :
    declare_classes nAccounts outcome [] = Except.ok () := by
  unfold declare_classes
  by_cases hz : nAccounts = 0
  · rw [if_pos hz]
    rfl
  · rw [if_neg hz]
    refine collect_shards_ok _ ?_
    intro x hx
    obtain ⟨j, _, he⟩ := List.mem_map.mp hx
    rw [← he]
    rfl

/-- C9: for an empty diff (world synced, every resource synced with no
permission or init divergence, no external contract changes) migrate performs
zero remote operations and returns has_changes = false. -/
theorem empty_diff_no_calls (diff : WorldDiff) (cfg : ProfileConfig)
    (decode : String → Option (List Felt)) (guest : Bool) (nAccounts : Nat)
    (outcome : Felt → DeclareOutcome)
    (hw : diff.world_info.status = WorldStatus.Synced)
    (hsync : diff.is_synced = true)
    (hperm : ∀ p ∈ diff.resources, only_local (diff.writers p.1) = [] ∧
      only_local (diff.owners p.1) = [])
    (hinit : ∀ p ∈ diff.resources, initEligible p.2 = false)
    (hext : ∀ q ∈ diff.external_contracts, external_deploy_call q.2 = none)
    (hextc : ∀ q ∈ diff.external_contract_classes, external_contract_classes q.2 = none) :
    migrate diff cfg decode guest nAccounts outcome = Except.ok (false, []) := by
  have hworld : (if !guest then ensure_world diff else Except.ok (false, [])) =
      Except.ok ((false : Bool), ([] : List RemoteOp)) := by
    have hew : ensure_world diff = Except.ok (false, []) := by
      unfold ensure_world
      rw [hw]
    cases guest <;> simp [hew]
  have hres : (if !diff.is_synced then sync_resources diff cfg nAccounts outcome
      else Except.ok (false, [])) = Except.ok ((false : Bool), ([] : List RemoteOp)) := by
    rw [hsync]
    rfl
  have hpermcalls : sync_permissions_calls diff cfg = [] :=
    permLoop_empty diff cfg diff.resources [] hperm
  have hpres : sync_permissions diff cfg = (false, []) := by
    unfold sync_permissions
    rw [hpermcalls]
    rfl
  have hic : initialize_contracts diff cfg decode = Except.ok (false, []) := by
    unfold initialize_contracts initialize_contracts_calls
    rw [initLoop_empty cfg decode diff.resources [] [] hinit]
    rfl
  have hclasses : external_classes_collected diff = [] := by
    unfold external_classes_collected
    rw [show (diff.external_contract_classes.map Prod.snd).filterMap
        external_contract_classes = [] from ?_]
    · rfl
    · rw [List.filterMap_eq_nil_iff]
      intro c hc
      obtain ⟨q, hq, he⟩ := List.mem_map.mp hc
      rw [← he]
      exact hextc q hq
  have hextcalls : external_deploy_calls diff = [] := by
    unfold external_deploy_calls
    rw [List.filterMap_eq_nil_iff]
    intro c hc
    obtain ⟨q, hq, he⟩ := List.mem_map.mp hc
    rw [← he]
    exact hext q hq
  have hsec : sync_external_contracts diff cfg nAccounts outcome =
      Except.ok (false, []) := by
    unfold sync_external_contracts
    rw [hclasses]
    dsimp only
    rw [declare_classes_empty nAccounts outcome, hextcalls]
    rfl
  unfold migrate
  rw [hworld, hres, hic, hsec, hpres]
  rfl

/-- Witness for C9 at the entirely empty diff. -/
theorem empty_diff_no_calls_witness :
    migrate emptyDiff sampleCfg (fun _ => none) false 0 (fun _ => DeclareOutcome.ok) =
      Except.ok (false, []) :=
  empty_diff_no_calls emptyDiff sampleCfg (fun _ => none) false 0 (fun _ => DeclareOutcome.ok)
    (by rfl) (by rfl) (by decide) (by decide) (by decide) (by decide)

end Dojo
